import Mathlib

/-!
# Verification of the MODIS LAI reconstruction pipeline

Shallow embedding of the core numerical pipeline of the repository
(`process_MODIS_LAI.ipynb` / `conversion_to_ALMA.ipynb`): the functions
`get_spatial_weighted_LAI`, `interpolate_NA_LAI`, `check_data_availability_LAI`,
`rolling_mean`, `smoothing_LAI` and the pixel-extraction part of `get_LAI`.

Modelling conventions:
* numpy float arrays are modelled as lists over `ℚ`; the NaN missing marker is
  modelled as `none` in `Option ℚ` (numpy arithmetic on NaN propagates NaN,
  modelled by `Option`-lifted arithmetic; comparisons with NaN are `False` in
  numpy, which the `Option` pattern matches reproduce);
* in-place numpy mutation (`lai_pixel[~mask] = np.nan` etc.) is modelled by
  explicit state passing: the embedded function returns the final contents of
  the mutated arrays next to its result;
* a Python function that can either return a value, fall off the end
  (returning `None`), or raise, is modelled with the `PyResult` type below.
-/

namespace ModisLAI

/-- Option-lifted multiplication: NaN propagates (numpy semantics). -/
def optMul (a b : Option ℚ) : Option ℚ :=
  match a, b with
  | some x, some y => some (x * y)
  | _, _ => none

/-- Option-lifted addition: NaN propagates (numpy semantics). -/
def optAdd (a b : Option ℚ) : Option ℚ :=
  match a, b with
  | some x, some y => some (x + y)
  | _, _ => none

/-- Option-lifted subtraction: NaN propagates (numpy semantics). -/
def optSub (a b : Option ℚ) : Option ℚ :=
  match a, b with
  | some x, some y => some (x - y)
  | _, _ => none

/-- `zipWith` over three lists (numpy elementwise ops over three aligned arrays). -/
def zipWith3 (f : α → β → γ → δ) : List α → List β → List γ → List δ
  | a :: as, b :: bs, c :: cs => f a b c :: zipWith3 f as bs cs
  | _, _, _ => []

/-- `np.nanmean` over a 1-D slice: mean of the non-NaN entries, NaN when all
entries are NaN. -/
def nanmean (xs : List (Option ℚ)) : Option ℚ :=
  let vs := xs.filterMap id
  if vs.isEmpty then none else some (vs.sum / vs.length)

/-! ## Stage 2: `get_spatial_weighted_LAI`

Source (`process_MODIS_LAI.ipynb`, lines 579-616):
```
qc_flags = [0, 2, 24, 26, 32, 34, 56, 58]
mask = np.isin(qc_pixel, qc_flags)
lai_pixel[~mask] = np.nan
sd_pixel[~mask] = np.nan
sd_pixel[sd_pixel < 0.1] = np.nan
lai_pixel[np.isnan(sd_pixel)] = np.nan
lai_pixel[lai_pixel > 10] = np.nan
weights = (1 / sd_pixel**2) / np.nansum(1 / sd_pixel**2, axis=1, keepdims=True)
weighted_lai_values = lai_pixel * weights
weighted_lai = np.nanmean(weighted_lai_values, axis=1)
```
All array operations act row-locally (axis=1), so the embedding is per row. -/

def qc_flags : List ℚ := [0, 2, 24, 26, 32, 34, 56, 58]

/-- `np.isin(qc, qc_flags)` for one cell; `np.isin` on NaN is `False`. -/
def isinQC (q : Option ℚ) : Bool :=
  match q with
  | some v => qc_flags.contains v
  | none => false

/-- Contents of one `sd_pixel` cell after the two masking assignments that
touch it (`sd_pixel[~mask] = nan`, `sd_pixel[sd_pixel < 0.1] = nan`).
A NaN cell fails `sd < 0.1` in numpy, matching the `none` branch. -/
def sdFinal (s q : Option ℚ) : Option ℚ :=
  match (if isinQC q then s else none) with
  | some v => if v < 1/10 then none else some v
  | none => none

/-- Contents of one `lai_pixel` cell after the three masking assignments that
touch it (`lai_pixel[~mask] = nan`, `lai_pixel[np.isnan(sd_pixel)] = nan`,
`lai_pixel[lai_pixel > 10] = nan`). -/
def laiFinal (l s q : Option ℚ) : Option ℚ :=
  match (if sdFinal s q = none then none else if isinQC q then l else none) with
  | some v => if 10 < v then none else some v
  | none => none

/-- `1 / sd**2`. -/
def invVar (s : ℚ) : ℚ := 1 / s ^ 2

/-- One row of the mutated `sd_pixel` array. -/
def rowSdFinal (ss qs : List (Option ℚ)) : List (Option ℚ) :=
  List.zipWith sdFinal ss qs

/-- One row of the mutated `lai_pixel` array. -/
def rowLaiFinal (ls ss qs : List (Option ℚ)) : List (Option ℚ) :=
  zipWith3 laiFinal ls ss qs

/-- `np.nansum(1 / sd_pixel**2, axis=1)` for one row: the sum of inverse
variances over the cells whose standard deviation survived masking. -/
def rowDenom (ss qs : List (Option ℚ)) : ℚ :=
  (((rowSdFinal ss qs).filterMap id).map invVar).sum

/-- One row of `weights = (1 / sd_pixel**2) / np.nansum(..., keepdims=True)`:
NaN where the standard deviation is masked, `(1/σ²)/rowDenom` elsewhere. -/
def rowWeights (ss qs : List (Option ℚ)) : List (Option ℚ) :=
  (rowSdFinal ss qs).map (Option.map (fun s => invVar s / rowDenom ss qs))

/-- One row of `weighted_lai_values = lai_pixel * weights`. -/
def rowWeighted (ls ss qs : List (Option ℚ)) : List (Option ℚ) :=
  List.zipWith optMul (rowLaiFinal ls ss qs) (rowWeights ss qs)

/-- One entry of `weighted_lai = np.nanmean(weighted_lai_values, axis=1)`. -/
def rowAgg (ls ss qs : List (Option ℚ)) : Option ℚ :=
  nanmean (rowWeighted ls ss qs)

/-- `get_spatial_weighted_LAI(lai_pixel, sd_pixel, qc_pixel)`.  The Python
function mutates `lai_pixel` and `sd_pixel` in place and returns
`weighted_lai`; the embedding passes the state explicitly: it returns
(final `lai_pixel`, final `sd_pixel`, `weighted_lai`).  `qc_pixel` is never
assigned to, so it has no slot in the returned state. -/
def get_spatial_weighted_LAI (lai_pixel sd_pixel qc_pixel : List (List (Option ℚ))) :
    List (List (Option ℚ)) × List (List (Option ℚ)) × List (Option ℚ) :=
  (zipWith3 rowLaiFinal lai_pixel sd_pixel qc_pixel,
   List.zipWith rowSdFinal sd_pixel qc_pixel,
   zipWith3 rowAgg lai_pixel sd_pixel qc_pixel)

/-! ## Stage 3: `interpolate_NA_LAI`

Source (lines 619-649):
```
filled_lai = unfilled_lai.copy()
nan_mask = np.isnan(unfilled_lai)
x = np.arange(len(unfilled_lai))
interp_func = interpolate.interp1d(x[~nan_mask], unfilled_lai[~nan_mask],
                                   kind='cubic', fill_value="extrapolate")
filled_lai[nan_mask] = interp_func(x)[nan_mask]
filled_lai[filled_lai < 0] = 0
filled_lai[-1] = 0
```
The cubic-spline interpolant built by `scipy.interpolate.interp1d` is a
numeric-library routine; the embedding abstracts it as a parameter
`interp : List (ℕ × ℚ) → ℕ → ℚ` taking the non-missing (index, value) pairs
(exactly `x[~nan_mask]` with `unfilled_lai[~nan_mask]`) and the query index.
Everything around the interpolant is embedded from the source. -/

/-- `zip(x[~nan_mask], unfilled_lai[~nan_mask])`: the (index, value) pairs of
the non-missing entries, indices counted from `k`. -/
def interpPts : ℕ → List (Option ℚ) → List (ℕ × ℚ)
  | _, [] => []
  | k, some x :: rest => (k, x) :: interpPts (k + 1) rest
  | k, none :: rest => interpPts (k + 1) rest

/-- `filled_lai[nan_mask] = interp_func(x)[nan_mask]`: keep present entries,
fill each missing position `i` with the interpolant evaluated at `i`
(positions counted from `k`). -/
def fillNA (interp : List (ℕ × ℚ) → ℕ → ℚ) (pts : List (ℕ × ℚ)) :
    ℕ → List (Option ℚ) → List (Option ℚ)
  | _, [] => []
  | k, some x :: rest => some x :: fillNA interp pts (k + 1) rest
  | k, none :: rest => some (interp pts k) :: fillNA interp pts (k + 1) rest

/-- `interpolate_NA_LAI(unfilled_lai)`, parametrized by the cubic interpolant.
`scipy` raises on an input with too few valid points (and Python indexing
raises on an empty array at `filled_lai[-1]`); the empty-input branch is
unreachable in the pipeline and returns `[]`. -/
def interpolate_NA_LAI (interp : List (ℕ × ℚ) → ℕ → ℚ)
    (unfilled_lai : List (Option ℚ)) : List (Option ℚ) :=
  if unfilled_lai.isEmpty then []
  else
    let filled := fillNA interp (interpPts 0 unfilled_lai) 0 unfilled_lai
    let capped := filled.map (Option.map (fun x => if x < 0 then 0 else x))
    capped.set (capped.length - 1) (some 0)

/-! ## Stage 4: `check_data_availability_LAI`

Source (lines 652-707).  Dates are modelled as pairs `(year, day-of-year)`.
`pd.date_range(start=f"{year}-01-01", end=f"{year}-12-31", freq='8D')`
produces the days-of-year `1 + 8*k` with `1 + 8*k ≤ 365` (or `366`), i.e.
`k = 0, ..., 45` — exactly 46 dates in every year, leap or not. -/

/-- A calendar date, encoded as (year, day-of-year). -/
def Date := ℕ × ℕ
deriving DecidableEq

/-- The year of a date. -/
def Date.year (d : Date) : ℕ := d.1

/-- `pd.date_range(f"{year}-01-01", f"{year}-12-31", freq='8D')`:
the 46 eight-day dates of `year`. -/
def dateRange46 (year : ℕ) : List Date :=
  (List.range 46).map (fun k => (year, 1 + 8 * k))

/-- The filling loop
```
fill_index = 0
for i, val in enumerate(result):
    if val:
        temp_array[i] = filled_lai[fill_index]
        fill_index += 1
```
`none` when `filled_lai[fill_index]` would raise `IndexError`. -/
def fillCal : List Bool → List ℚ → Option (List (Option ℚ))
  | [], _ => some []
  | true :: bs, v :: vs => (fillCal bs vs).map (some v :: ·)
  | true :: _, [] => none
  | false :: bs, vs => (fillCal bs vs).map ((none : Option ℚ) :: ·)

/-- `array.reshape(-1, n)` as a list of rows.  At every call site the length
is a multiple of `n` (the calendar always contributes 46 dates per year), so
no remainder is ever discarded.  The recursion is driven by a fuel argument
initialized to the list length (each step consumes at least one element). -/
def chunkExactGo (n : ℕ) : ℕ → List α → List (List α)
  | 0, _ => []
  | fuel + 1, xs =>
    if n = 0 ∨ xs.length < n then []
    else xs.take n :: chunkExactGo n fuel (xs.drop n)

/-- `array.reshape(-1, n)` as a list of rows. -/
def chunkExact (n : ℕ) (xs : List α) : List (List α) :=
  chunkExactGo n xs.length xs

/-- Python's effective index: `i + len` when `i < 0` (negative-index
wrap-around), `i` otherwise. -/
def pyIdx (n : ℕ) (i : ℤ) : ℤ := if i < 0 then i + n else i

/-- Python list/array indexing with negative-index wrap-around:
`xs[i]` reads `xs[len + i]` when `i < 0`; out of range is `none`
(an `IndexError`). -/
def pyGet (xs : List (Option ℚ)) (i : ℤ) : Option (Option ℚ) :=
  if 0 ≤ pyIdx xs.length i ∧ pyIdx xs.length i < xs.length then
    xs.get? (pyIdx xs.length i).toNat
  else none

/-- `(a + b) / 2` under NaN propagation. -/
def optAvg (a b : Option ℚ) : Option ℚ :=
  match a, b with
  | some x, some y => some ((x + y) / 2)
  | _, _ => none

/-- `np.where(np.isnan(flat))[0]`: the positions of the missing entries. -/
def noneIndices (xs : List (Option ℚ)) : List ℕ :=
  (List.range xs.length).filter (fun i => xs.get? i = some none)

/-- One iteration of the gap-fill loop body
`flat[position] = (flat[position-1] + flat[position+1]) / 2`,
over the running (mutated) array; `none` when a neighbour read raises. -/
def gapStep (cur : Option (List (Option ℚ))) (pos : ℕ) : Option (List (Option ℚ)) :=
  cur.bind (fun xs =>
    match pyGet xs ((pos : ℤ) - 1), pyGet xs ((pos : ℤ) + 1) with
    | some a, some b => some (xs.set pos (optAvg a b))
    | _, _ => none)

/-- The calendar gap-fill step: the `for position in positions` loop of
`check_data_availability_LAI`, run over the positions of the missing entries
of the original array, mutating the array as it goes.  `none` models an
uncaught `IndexError`. -/
def gapFill (flat : List (Option ℚ)) : Option (List (Option ℚ)) :=
  (noneIndices flat).foldl gapStep (some flat)

/-- Result of a Python function that can return a value, fall off the end
(returning `None`), or raise an exception. -/
inductive PyResult (α : Type) where
  | ok : α → PyResult α
  | retNone : PyResult α
  | error : PyResult α
deriving DecidableEq

/-- `check_data_availability_LAI(filled_lai, lai_time)`.

Source structure:
```
for year in range(lai_time.dt.year.min(), lai_time.dt.year.max()+1):
    all_tsteps.extend(pd.date_range(f"{year}-01-01", f"{year}-12-31", freq='8D'))
result = all_time.isin(lai_time)
... fill temp_array ...
selected_lai = temp_array.reshape(-1, 46)[1:-1]
selected_dates = all_time[(all_time.year >= 2003) & (all_time.year <= 2023)]
if len(np.isnan(selected_lai).flatten()) > 0:      # total cell count, not NaN count
    positions = np.where(np.isnan(selected_lai_flatten))[0]
    if len(positions) > 0:
        for position in positions: ... average neighbours ...
        return gap_free_lai, selected_dates
else:
    return selected_lai, selected_dates
```
When the matrix is nonempty but has no NaN cell, control falls off the end of
the function: Python returns `None` (`PyResult.retNone`). -/
def check_data_availability_LAI (filled_lai : List ℚ) (lai_time : List Date) :
    PyResult (List (List (Option ℚ)) × List Date) :=
  match (lai_time.map Date.year).min?, (lai_time.map Date.year).max? with
  | some minY, some maxY =>
    let all_time := (List.range (maxY + 1 - minY)).flatMap (fun i => dateRange46 (minY + i))
    match fillCal (all_time.map (fun d => decide (d ∈ lai_time))) filled_lai with
    | none => .error
    | some temp =>
      let selected := ((chunkExact 46 temp).drop 1).dropLast
      let selected_dates := all_time.filter (fun d => 2003 ≤ d.year ∧ d.year ≤ 2023)
      let flat := selected.flatten
      if flat.length > 0 then
        if noneIndices flat ≠ [] then
          match gapFill flat with
          | some newflat => .ok (chunkExact 46 newflat, selected_dates)
          | none => .error
        else .retNone
      else .ok (selected, selected_dates)
  | _, _ => .error

/-! ## Stage 5: `rolling_mean`, `savgol_filter` and `smoothing_LAI`

Source (lines 711-750).  `scipy.signal.savgol_filter(x, window_length=13,
polyorder=3)` (default `deriv=0`, `mode='interp'`) computes, at each
position, the value at that position of the least-squares cubic fit to the
surrounding 13 samples: interior positions use the symmetric window centred
on the position; the first/last 6 positions use the cubic fitted to the
first/last 13 samples (`mode='interp'`).  All these are rows of the exact
rational hat matrix `H = A (AᵀA)⁻¹ Aᵀ` of a cubic fit at abscissae 0..12,
which is hard-coded below (each row sums to 1; row 6 is the classic 13-point
quadratic/cubic smoothing kernel `(-11,0,9,16,21,24,25,24,21,16,9,0,-11)/143`).
`savgol_filter` raises when the input is shorter than the window. -/

/-- Row `j` of the 13-point cubic least-squares hat matrix: the coefficients
producing the fitted value at position `j` of the window. -/
def savgolRow (j : ℕ) : List ℚ :=
  match j with
  | 0 => [265/364, 33/91, 3/26, -3/91, -37/364, -10/91, -1/13, -2/91, 1/28, 1/13, 15/182, 3/91, -33/364]
  | 1 => [33/91, 25/91, 18/91, 12/91, 1/13, 3/91, 0, -2/91, -3/91, -3/91, -2/91, 0, 3/91]
  | 2 => [3/26, 18/91, 230/1001, 222/1001, 369/2002, 128/1001, 9/143, 0, -101/2002, -6/77, -72/1001, -2/91, 15/182]
  | 3 => [-3/91, 12/91, 222/1001, 251/1001, 233/1001, 2/11, 16/143, 37/1001, -29/1001, -72/1001, -6/77, -3/91, 1/13]
  | 4 => [-37/364, 1/13, 369/2002, 233/1001, 939/4004, 202/1001, 21/143, 82/1001, 1/52, -29/1001, -101/2002, -3/91, 1/28]
  | 5 => [-10/91, 3/91, 128/1001, 2/11, 202/1001, 15/77, 24/143, 128/1001, 82/1001, 37/1001, 0, -2/91, -2/91]
  | 6 => [-1/13, 0, 9/143, 16/143, 21/143, 24/143, 25/143, 24/143, 21/143, 16/143, 9/143, 0, -1/13]
  | 7 => [-2/91, -2/91, 0, 37/1001, 82/1001, 128/1001, 24/143, 15/77, 202/1001, 2/11, 128/1001, 3/91, -10/91]
  | 8 => [1/28, -3/91, -101/2002, -29/1001, 1/52, 82/1001, 21/143, 202/1001, 939/4004, 233/1001, 369/2002, 1/13, -37/364]
  | 9 => [1/13, -3/91, -6/77, -72/1001, -29/1001, 37/1001, 16/143, 2/11, 233/1001, 251/1001, 222/1001, 12/91, -3/91]
  | 10 => [15/182, -2/91, -72/1001, -6/77, -101/2002, 0, 9/143, 128/1001, 369/2002, 222/1001, 230/1001, 18/91, 3/26]
  | 11 => [3/91, 0, -2/91, -3/91, -3/91, -2/91, 0, 3/91, 1/13, 12/91, 18/91, 25/91, 33/91]
  | _ => [-33/364, 3/91, 15/182, 1/13, 1/28, -2/91, -1/13, -10/91, -37/364, -3/91, 3/26, 33/91, 265/364]

/-- Dot product of hat-matrix row `j` with a 13-sample window. -/
def savgolDot (j : ℕ) (w : List ℚ) : ℚ :=
  (List.zipWith (· * ·) (savgolRow j) w).sum

/-- `savgol_filter(xs, window_length=13, polyorder=3)` on a series of length
`≥ 13` (the guard for shorter input lives in `savgolOpt`). -/
def savgolCore (xs : List ℚ) : List ℚ :=
  let n := xs.length
  (List.range n).map (fun i =>
    if i < 6 then savgolDot i (xs.take 13)
    else if n < i + 7 then savgolDot (i + 13 - n) (xs.drop (n - 13))
    else savgolDot 6 ((xs.drop (i - 6)).take 13))

/-- `allSome xs = some vs` iff no entry of `xs` is missing. -/
def allSome : List (Option ℚ) → Option (List ℚ)
  | [] => some []
  | some x :: rest => (allSome rest).map (x :: ·)
  | none :: _ => none

/-- `savgol_filter` on a possibly-NaN-containing array: raises (outer `none`)
when the array is shorter than the window; a NaN input sample pollutes the
least-squares fits, so any NaN input yields an all-NaN output. -/
def savgolOpt (xs : List (Option ℚ)) : Option (List (Option ℚ)) :=
  if xs.length < 13 then none
  else some (match allSome xs with
             | some vs => (savgolCore vs).map some
             | none => xs.map (fun _ => (none : Option ℚ)))

/-- `np.mean` over a 1-D slice: NaN if any entry is NaN (or the slice is
empty), the plain mean otherwise. -/
def windowMean (xs : List (Option ℚ)) : Option ℚ :=
  match allSome xs with
  | some vs => if vs.isEmpty then none else some (vs.sum / vs.length)
  | none => none

/-- `rolling_mean(array, window)`:
```
for i in range(array.shape[0]):
    start_index = max(0, i - window // 2)
    end_index = min(array.shape[0], i + (window + 1) // 2)
    result[i] = np.mean(array[start_index:end_index], axis=0)
```
(`i - window // 2` in ℕ is exactly `max(0, i - window // 2)`). -/
def rolling_mean (array : List (Option ℚ)) (window : ℕ) : List (Option ℚ) :=
  (List.range array.length).map (fun i =>
    let s := i - window / 2
    let e := min array.length (i + (window + 1) / 2)
    windowMean ((array.drop s).take (e - s)))

/-- `np.nanmean(gap_free_lai, axis=0)`: per-column mean ignoring NaN
(column count read off the first row, as numpy reads it off the shape). -/
def colMeans (gap_free_lai : List (List (Option ℚ))) : List (Option ℚ) :=
  (List.range (gap_free_lai.headD []).length).map (fun j =>
    nanmean (gap_free_lai.map (fun row => row.getD j none)))

/-- `np.tile(xs, reps)`. -/
def tile (xs : List (Option ℚ)) (reps : ℕ) : List (Option ℚ) :=
  (List.replicate reps xs).flatten

/-- `gap_free_lai - column_means` broadcast across rows. -/
def anomalyOf (gap_free_lai : List (List (Option ℚ))) : List (List (Option ℚ)) :=
  gap_free_lai.map (fun row => List.zipWith optSub row (colMeans gap_free_lai))

/-- `smoothing_LAI(gap_free_lai)`:
```
column_means = np.nanmean(gap_free_lai, axis=0)
smoothed_column_means = savgol_filter(column_means, window_length=13, polyorder=3)
anomaly = gap_free_lai - column_means
anomaly_rolling = rolling_mean(anomaly.flatten(), 13)
smoothed_lai = anomaly_rolling + np.tile(smoothed_column_means, (anomaly.shape[0]))
```
`none` models the `savgol_filter` exception on a profile shorter than 13. -/
def smoothing_LAI (gap_free_lai : List (List (Option ℚ))) : Option (List (Option ℚ)) :=
  (savgolOpt (colMeans gap_free_lai)).map (fun smoothed_column_means =>
    let anomaly_rolling := rolling_mean (anomalyOf gap_free_lai).flatten 13
    List.zipWith optAdd anomaly_rolling (tile smoothed_column_means gap_free_lai.length))

/-! ## Stage 1: the pixel-extraction part of `get_LAI`

Source (lines 770-795).  File I/O is out of scope; the three parsed CSV
tables are the inputs, one `Record` per row.
```
no_tsteps = min(len(lai), len(sd), len(qc)) // max(lai['pixel'])
pixel_no = [7, 8, 9, 12, 13, 14, 17, 18, 19]
lai_time = pd.to_datetime(lai.loc[lai['pixel'] == pixel_no[0], 'calendar_date'])
for idx, p in enumerate(pixel_no):
    lai_pixel[:, idx] = lai.loc[lai['pixel'] == p, 'value'].values[:no_tsteps] * lai.loc[lai['pixel'] == p, 'scale'].values[0]
    sd_pixel[:, idx]  = sd.loc[sd['pixel'] == p, 'value'].values[:no_tsteps] * sd.loc[sd['pixel'] == p, 'scale'].values[0]
    qc_pixel[:, idx]  = qc.loc[qc['pixel'] == p, 'value'].values[:no_tsteps]
```
The `[time, 9]` arrays are represented column-major: one list per pixel slot
(the loop fills one column per pixel).  Assigning a too-short slice to a
column of length `no_tsteps` raises `ValueError`, and `.values[0]` on an
absent pixel raises `IndexError`; both are modelled as `none`. -/

/-- One parsed CSV row of a MODIS table. -/
structure Record where
  pixel : ℕ
  calendar_date : ℕ
  value : ℚ
  scale : ℚ
deriving DecidableEq

/-- The fixed 3×3 neighbourhood inside the 5×5 MODIS cut-out. -/
def pixel_no : List ℕ := [7, 8, 9, 12, 13, 14, 17, 18, 19]

/-- `tbl.loc[tbl['pixel'] == p]`. -/
def pixelRows (tbl : List Record) (p : ℕ) : List Record :=
  tbl.filter (fun r => r.pixel == p)

/-- `min(len(lai), len(sd), len(qc)) // max(lai['pixel'])`; `none` models the
`ValueError` of `max` on an empty table and the `ZeroDivisionError` when the
largest pixel identifier is 0. -/
def no_tsteps (lai sd qc : List Record) : Option ℕ :=
  match (lai.map Record.pixel).max? with
  | some m => if m = 0 then none else some (min (min lai.length sd.length) qc.length / m)
  | none => none

/-- One scaled column:
`tbl.loc[tbl['pixel'] == p, 'value'].values[:n] * tbl.loc[..., 'scale'].values[0]`. -/
def colScaled (tbl : List Record) (p n : ℕ) : Option (List ℚ) :=
  match pixelRows tbl p with
  | [] => none
  | r0 :: _ =>
    if (pixelRows tbl p).length < n then none
    else some (((pixelRows tbl p).take n).map (fun r => r.value * r0.scale))

/-- One unscaled (QC) column: `tbl.loc[tbl['pixel'] == p, 'value'].values[:n]`. -/
def colUnscaled (tbl : List Record) (p n : ℕ) : Option (List ℚ) :=
  if (pixelRows tbl p).length < n then none
  else some (((pixelRows tbl p).take n).map Record.value)

/-- Sequence a list of optional columns (the loop fails as soon as one pixel
raises). -/
def allSomeCols : List (Option (List ℚ)) → Option (List (List ℚ))
  | [] => some []
  | some c :: rest => (allSomeCols rest).map (c :: ·)
  | none :: _ => none

/-- The pixel-extraction part of `get_LAI`: builds the three grids (as 9
columns of length `no_tsteps` each) and the timestamp sequence of the
reference pixel `pixel_no[0] = 7`. -/
def get_LAI_grids (lai sd qc : List Record) :
    Option (List (List ℚ) × List (List ℚ) × List (List ℚ) × List ℕ) :=
  (no_tsteps lai sd qc).bind (fun n =>
    (allSomeCols (pixel_no.map (fun p => colScaled lai p n))).bind (fun lai_pixel =>
    (allSomeCols (pixel_no.map (fun p => colScaled sd p n))).bind (fun sd_pixel =>
    (allSomeCols (pixel_no.map (fun p => colUnscaled qc p n))).map (fun qc_pixel =>
      (lai_pixel, sd_pixel, qc_pixel,
       (pixelRows lai 7).map Record.calendar_date)))))

/-! ## Spec-side definitions

Definitions written from the specification's words, used to compare the
specified behaviour with the embedded code. -/

/-- Spec §4.5: "a centered rolling mean with window 13 ... shrinking at the
sequence boundaries": output `i` averages the entries from `max(0, i-6)`
through `min(n-1, i+6)` inclusive (`i - 6` in ℕ is `max(0, i-6)`). -/
def specRollingMean13 (arr : List (Option ℚ)) : List (Option ℚ) :=
  (List.range arr.length).map (fun i =>
    let lo := i - 6
    let hi := min (arr.length - 1) (i + 6)
    windowMean ((arr.drop lo).take (hi + 1 - lo)))

/-- Spec §4.5: "compute, for each of the 46 calendar slots, the mean across
all retained years ignoring any residual missing values". -/
def specClimatology (M : List (List (Option ℚ))) : List (Option ℚ) :=
  (List.range (M.headD []).length).map (fun j =>
    let col := (M.map (fun row => row.getD j none)).filterMap id
    if col.isEmpty then none else some (col.sum / col.length))

/-- Spec §4.5, the Climatology Smoother assembled from the spec's words:
smooth the 46-slot profile with the Savitzky-Golay filter (window 13,
order 3); anomaly = matrix − raw per-slot means; smooth the flattened
anomaly with the centered shrinking rolling mean of window 13; add the
smoothed climatology tiled once per retained year. -/
def spec_smoothing (M : List (List (Option ℚ))) : Option (List (Option ℚ)) :=
  let clim := specClimatology M
  (savgolOpt clim).map (fun smoothClim =>
    let anomaly := M.map (fun row => List.zipWith optSub row clim)
    List.zipWith optAdd (specRollingMean13 anomaly.flatten) (tile smoothClim M.length))

/-- Spec §4.1: "N = the minimum common observation count across the three
sources, divided evenly by the number of distinct pixels present". -/
def spec_no_tsteps (lai sd qc : List Record) : ℕ :=
  min (min lai.length sd.length) qc.length / (lai.map Record.pixel).dedup.length

/-- Spec §4.2 keep-mask for one cell: (QC value is a member of the accepted
set) AND (standard deviation ≥ 0.1) AND (LAI ≤ 10); a cell whose standard
deviation or LAI is already missing fails the respective condition.  A pixel
"fails the quality mask" when this is `false`, whichever of the three
conditions is violated. -/
def keepMask (l s q : Option ℚ) : Bool :=
  isinQC q &&
    (match s with
     | some v => decide (1/10 ≤ v)
     | none => false) &&
    (match l with
     | some v => decide (v ≤ 10)
     | none => false)

/-! ## Helper lemmas -/

theorem mem_zipWith {f : α → β → γ} {x : γ} :
    ∀ {as : List α} {bs : List β}, x ∈ List.zipWith f as bs →
      ∃ a b, a ∈ as ∧ b ∈ bs ∧ x = f a b := by
  intro as
  induction as with
  | nil => intro bs h; simp at h
  | cons a as ih =>
    intro bs h
    cases bs with
    | nil => simp at h
    | cons b bs =>
      rw [List.zipWith_cons_cons] at h
      rcases List.mem_cons.1 h with rfl | h'
      · exact ⟨a, b, List.mem_cons_self _ _, List.mem_cons_self _ _, rfl⟩
      · obtain ⟨a', b', ha, hb, hx⟩ := ih h'
        exact ⟨a', b', List.mem_cons_of_mem _ ha, List.mem_cons_of_mem _ hb, hx⟩

theorem zipWith3_cons (f : α → β → γ → δ) (a : α) (b : β) (c : γ)
    (as : List α) (bs : List β) (cs : List γ) :
    zipWith3 f (a :: as) (b :: bs) (c :: cs) = f a b c :: zipWith3 f as bs cs := rfl

theorem mem_zipWith3 {f : α → β → γ → δ} {x : δ} :
    ∀ {as : List α} {bs : List β} {cs : List γ}, x ∈ zipWith3 f as bs cs →
      ∃ a b c, a ∈ as ∧ b ∈ bs ∧ c ∈ cs ∧ x = f a b c := by
  intro as
  induction as with
  | nil => intro bs cs h; cases bs <;> cases cs <;> simp [zipWith3] at h
  | cons a as ih =>
    intro bs cs h
    cases bs with
    | nil => cases cs <;> simp [zipWith3] at h
    | cons b bs =>
      cases cs with
      | nil => simp [zipWith3] at h
      | cons c cs =>
        rw [zipWith3_cons] at h
        rcases List.mem_cons.1 h with rfl | h'
        · exact ⟨a, b, c, List.mem_cons_self _ _, List.mem_cons_self _ _,
            List.mem_cons_self _ _, rfl⟩
        · obtain ⟨a', b', c', ha, hb, hc, hx⟩ := ih h'
          exact ⟨a', b', c', List.mem_cons_of_mem _ ha, List.mem_cons_of_mem _ hb,
            List.mem_cons_of_mem _ hc, hx⟩

theorem filterMap_id_eq_nil {xs : List (Option ℚ)} (h : ∀ x ∈ xs, x = none) :
    xs.filterMap id = [] := by
  induction xs with
  | nil => rfl
  | cons a as ih =>
    have ha := h a (List.mem_cons_self _ _)
    subst ha
    simpa using ih (fun x hx => h x (List.mem_cons_of_mem _ hx))

theorem filterMap_id_map_optionMap (g : ℚ → ℚ) (xs : List (Option ℚ)) :
    (xs.map (Option.map g)).filterMap id = (xs.filterMap id).map g := by
  induction xs with
  | nil => rfl
  | cons a as ih => cases a <;> simp [ih]

theorem sum_map_div (l : List ℚ) (d : ℚ) :
    (l.map (fun x => x / d)).sum = l.sum / d := by
  induction l with
  | nil => simp
  | cons a as ih => simp [ih, add_div]

theorem sum_pos_of_mem {l : List ℚ} {x : ℚ} (hx : x ∈ l) (h0 : ∀ y ∈ l, 0 ≤ y)
    (hxpos : 0 < x) : 0 < l.sum := by
  induction l with
  | nil => cases hx
  | cons a as ih =>
    rcases List.mem_cons.1 hx with rfl | hx'
    · have : 0 ≤ as.sum :=
        List.sum_nonneg (fun y hy => h0 y (List.mem_cons_of_mem _ hy))
      simpa using add_pos_of_pos_of_nonneg hxpos this
    · have : 0 ≤ a := h0 a (List.mem_cons_self _ _)
      have := ih hx' (fun y hy => h0 y (List.mem_cons_of_mem _ hy))
      simpa using add_pos_of_nonneg_of_pos ‹0 ≤ a› this

theorem sdFinal_some_bound {s q : Option ℚ} {x : ℚ} (h : sdFinal s q = some x) :
    1/10 ≤ x := by
  unfold sdFinal at h
  rcases hsq : (if isinQC q then s else none) with _ | v <;> rw [hsq] at h
  · cases h
  · have h' : (if v < 1/10 then (none : Option ℚ) else some v) = some x := h
    by_cases hv : v < 1/10
    · rw [if_pos hv] at h'
      cases h'
    · rw [if_neg hv] at h'
      cases Option.some.inj h'
      exact not_lt.1 hv

theorem laiFinal_none_of_qcfail {l s q : Option ℚ} (h : isinQC q = false) :
    laiFinal l s q = none := by
  unfold laiFinal
  by_cases h2 : sdFinal s q = none
  · rw [h2]
    exact rfl
  · rw [if_neg h2, h]
    exact rfl

theorem isinQC_some_iff (r : ℚ) : isinQC (some r) = true ↔ r ∈ qc_flags := by
  simp [isinQC, List.contains_iff_exists_mem_beq, beq_iff_eq]

theorem isinQC_some_true {r : ℚ} (h : r ∈ qc_flags) : isinQC (some r) = true :=
  (isinQC_some_iff r).2 h

theorem isinQC_some_false {r : ℚ} (h : r ∉ qc_flags) : isinQC (some r) = false := by
  cases hb : isinQC (some r)
  · rfl
  · exact absurd ((isinQC_some_iff r).1 hb) h

theorem sdFinal_eval (s q : ℚ) :
    sdFinal (some s) (some q) =
      if q ∈ qc_flags then (if s < 1/10 then none else some s) else none := by
  unfold sdFinal
  by_cases hq : q ∈ qc_flags
  · rw [isinQC_some_true hq, if_pos hq]
    exact rfl
  · rw [isinQC_some_false hq, if_neg hq]
    exact rfl

theorem laiFinal_eval (l s q : ℚ) :
    laiFinal (some l) (some s) (some q) =
      if q ∈ qc_flags ∧ ¬ s < 1/10 ∧ ¬ 10 < l then some l else none := by
  unfold laiFinal
  by_cases hq : q ∈ qc_flags
  · by_cases hs : s < 1/10
    · have hsd : sdFinal (some s) (some q) = none := by
        rw [sdFinal_eval, if_pos hq, if_pos hs]
      have hc : ¬ (q ∈ qc_flags ∧ ¬ s < 1/10 ∧ ¬ 10 < l) := fun h => h.2.1 hs
      rw [hsd, if_neg hc]
      exact rfl
    · have hsd : sdFinal (some s) (some q) = some s := by
        rw [sdFinal_eval, if_pos hq, if_neg hs]
      by_cases hl : 10 < l
      · have hc : ¬ (q ∈ qc_flags ∧ ¬ s < 1/10 ∧ ¬ 10 < l) := fun h => h.2.2 hl
        rw [hsd, isinQC_some_true hq, if_neg hc]
        show (if 10 < l then (none : Option ℚ) else some l) = none
        rw [if_pos hl]
      · have hc : q ∈ qc_flags ∧ ¬ s < 1/10 ∧ ¬ 10 < l := ⟨hq, hs, hl⟩
        rw [hsd, isinQC_some_true hq, if_pos hc]
        show (if 10 < l then (none : Option ℚ) else some l) = some l
        rw [if_neg hl]
  · have hsd : sdFinal (some s) (some q) = none := by
      rw [sdFinal_eval, if_neg hq]
    have hc : ¬ (q ∈ qc_flags ∧ ¬ s < 1/10 ∧ ¬ 10 < l) := fun h => hq h.1
    rw [hsd, if_neg hc]
    exact rfl

theorem laiFinal_cases (l s q : Option ℚ) : laiFinal l s q = l ∨ laiFinal l s q = none := by
  unfold laiFinal
  by_cases h2 : sdFinal s q = none
  · right
    rw [h2]
    exact rfl
  · by_cases h1 : isinQC q
    · rcases l with _ | lv
      · right
        rw [if_neg h2, h1]
        exact rfl
      · by_cases h3 : 10 < lv
        · right
          rw [if_neg h2, h1]
          show (if 10 < lv then (none : Option ℚ) else some lv) = none
          rw [if_pos h3]
        · left
          rw [if_neg h2, h1]
          show (if 10 < lv then (none : Option ℚ) else some lv) = some lv
          rw [if_neg h3]
    · right
      rw [Bool.not_eq_true] at h1
      rw [if_neg h2, h1]
      exact rfl

theorem sdFinal_cases (s q : Option ℚ) : sdFinal s q = s ∨ sdFinal s q = none := by
  unfold sdFinal
  by_cases h1 : isinQC q
  · rcases s with _ | sv
    · right
      rw [h1]
      exact rfl
    · by_cases h2 : sv < 1/10
      · right
        rw [h1]
        show (if sv < 1/10 then (none : Option ℚ) else some sv) = none
        rw [if_pos h2]
      · left
        rw [h1]
        show (if sv < 1/10 then (none : Option ℚ) else some sv) = some sv
        rw [if_neg h2]
  · right
    rw [Bool.not_eq_true] at h1
    rw [h1]
    exact rfl

/-! ## Claim C1 -/

/-- **C1** (code bug): the spec's scenario — a time step whose nine pixels all
pass the mask with standard deviation 0.5 and LAI 3.0 — should yield a
weighted mean of 3.0 (each weight is 1/9 and the weights sum to 1), but
`get_spatial_weighted_LAI` ends with `np.nanmean(weighted_lai_values, axis=1)`
rather than a `nansum`: it divides the already-normalized weighted sum by the
number of surviving pixels once more and returns 1/3 ≠ 3. -/
theorem C1_scenario_weighted_mean_is_one_third :
    (get_spatial_weighted_LAI [List.replicate 9 (some 3)] [List.replicate 9 (some (1/2))]
        [List.replicate 9 (some 0)]).2.2 = [some (1/3)] ∧ ((1 : ℚ)/3 ≠ 3) := by
  with_unfolding_all decide

/-! ## Claim C2 -/

set_option maxRecDepth 40000 in
/-- **C2** (code bug): on a series whose retained middle year is complete (no
missing cell at all after dropping the first and last year rows),
`check_data_availability_LAI` falls off the end of the function and returns
Python `None` instead of the documented (matrix, dates) pair: the guard
`len(np.isnan(selected_lai).flatten()) > 0` counts all cells, not the NaN
cells, and the gap-fill branch only returns when NaN positions exist.
Input: all 46 calendar dates of 2003, 2004 and 2005 present, 138 values. -/
theorem C2_complete_input_returns_none :
    check_data_availability_LAI (List.replicate 138 3)
      (dateRange46 2003 ++ dateRange46 2004 ++ dateRange46 2005) = PyResult.retNone := by
  with_unfolding_all rfl

/-! ## Claim C3 -/

/-- **C3** (counterexample): a cell failing only the LAI ≤ 10 ceiling
(LAI 11, σ = 1, QC 0) is *not* treated as missing in the standard-deviation
grid (the returned `sd_pixel` keeps `some 1` at that cell), and its inverse
variance still participates in the normalization: with one other valid pixel
(LAI 2, σ = 1) the denominator is 1 + 1 = 2, so the output is
2 · (1/2) = 1 instead of the 2 the claim's fully-excluded weighting yields. -/
theorem C3_lai_ceiling_cell_keeps_sd_and_weight :
    (get_spatial_weighted_LAI
        [[some 11, some 2, some 3, some 3, some 3, some 3, some 3, some 3, some 3]]
        [List.replicate 9 (some 1)]
        [[some 0, some 0, some 255, some 255, some 255, some 255, some 255, some 255, some 255]]).2.1
      = [[some 1, some 1, none, none, none, none, none, none, none]] ∧
    (get_spatial_weighted_LAI
        [[some 11, some 2, some 3, some 3, some 3, some 3, some 3, some 3, some 3]]
        [List.replicate 9 (some 1)]
        [[some 0, some 0, some 255, some 255, some 255, some 255, some 255, some 255, some 255]]).2.2
      = [some 1] ∧ (1 : ℚ) ≠ 2 := by
  with_unfolding_all decide

/-- **C3** (amended): a cell is missing in the LAI grid iff it fails the QC
membership, the σ ≥ 0.1 floor, or the LAI ≤ 10 ceiling — and such a cell
never contributes a value (its weighted product is missing, so the row mean
skips it) — but a cell is missing in the standard-deviation grid iff it fails
the QC membership or the σ floor only; the LAI-ceiling condition leaves σ in
place, and the per-row weights are normalized over the cells with surviving
σ (they sum to 1 over those cells whenever at least one survives), not over
the cells with surviving LAI. -/
theorem C3_amended_mask_semantics (l s q : ℚ) (ss qs : List (Option ℚ))
    (hvalid : ∃ x, x ∈ (rowSdFinal ss qs).filterMap id) :
    (laiFinal (some l) (some s) (some q) = none ↔
      q ∉ qc_flags ∨ s < 1/10 ∨ 10 < l) ∧
    (sdFinal (some s) (some q) = none ↔ q ∉ qc_flags ∨ s < 1/10) ∧
    (∀ (ls : List (Option ℚ)) (j : ℕ) (x : Option ℚ),
      (rowLaiFinal ls ss qs).get? j = some none →
      (rowWeighted ls ss qs).get? j = some x → x = none) ∧
    ((rowWeights ss qs).filterMap id).sum = 1 := by
  refine ⟨?_, ?_, ?_, ?_⟩
  · rw [laiFinal_eval]
    by_cases hcond : q ∈ qc_flags ∧ ¬ s < 1/10 ∧ ¬ 10 < l
    · rw [if_pos hcond]
      exact iff_of_false (by simp) (by tauto)
    · rw [if_neg hcond]
      exact iff_of_true rfl (by tauto)
  · rw [sdFinal_eval]
    by_cases hq : q ∈ qc_flags
    · by_cases hs : s < 1/10
      · rw [if_pos hq, if_pos hs]
        exact iff_of_true rfl (Or.inr hs)
      · rw [if_pos hq, if_neg hs]
        exact iff_of_false (by simp) (by tauto)
    · rw [if_neg hq]
      exact iff_of_true rfl (Or.inl hq)
  · intro ls j x hlai hw
    unfold rowWeighted at hw
    rcases hzw : (List.zipWith optMul (rowLaiFinal ls ss qs) (rowWeights ss qs)).get? j with
      _ | y
    · rw [hzw] at hw; cases hw
    · rw [hzw] at hw
      cases Option.some.inj hw
      have hlen : j < (List.zipWith optMul (rowLaiFinal ls ss qs) (rowWeights ss qs)).length := by
        by_contra hge
        rw [List.get?_eq_getElem?, List.getElem?_eq_none (not_lt.1 hge)] at hzw
        cases hzw
      rw [List.length_zipWith, lt_min_iff] at hlen
      rw [List.get?_eq_getElem?, List.getElem?_zipWith] at hzw
      rw [List.get?_eq_getElem?] at hlai
      rw [hlai, List.getElem?_eq_getElem hlen.2] at hzw
      cases Option.some.inj hzw
      rfl
  · obtain ⟨x0, hx0⟩ := hvalid
    unfold rowWeights
    rw [filterMap_id_map_optionMap]
    have hmap :
        ((rowSdFinal ss qs).filterMap id).map (fun s => invVar s / rowDenom ss qs)
          = (((rowSdFinal ss qs).filterMap id).map invVar).map
              (fun y => y / rowDenom ss qs) := by
      rw [List.map_map]
      rfl
    rw [hmap, sum_map_div]
    have hbound : ∀ y ∈ ((rowSdFinal ss qs).filterMap id).map invVar, 0 ≤ y := by
      intro y hy
      obtain ⟨z, _, rfl⟩ := List.mem_map.1 hy
      unfold invVar
      positivity
    have hx0inv : invVar x0 ∈ ((rowSdFinal ss qs).filterMap id).map invVar :=
      List.mem_map_of_mem _ hx0
    have hx0pos : 0 < invVar x0 := by
      obtain ⟨o, ho, hox⟩ := List.mem_filterMap.1 hx0
      obtain ⟨a, b, _, _, hfo⟩ := mem_zipWith (f := sdFinal) ho
      have : sdFinal a b = some x0 := by rw [← hfo]; exact hox
      have hge := sdFinal_some_bound this
      unfold invVar
      have : (0 : ℚ) < x0 := lt_of_lt_of_le (by norm_num) hge
      positivity
    have hpos : 0 < rowDenom ss qs :=
      sum_pos_of_mem hx0inv hbound hx0pos
    unfold rowDenom
    exact div_self (ne_of_gt hpos)

/-! ## Claim C10 -/

/-- **C10** (counterexample): `get_spatial_weighted_LAI` does *not* leave its
input arrays unmodified — it writes the missing marker into the LAI grid in
place.  For the single-cell grids LAI = 3, σ = 1, QC = 255 (a disallowed
flag), the LAI array after the call holds `none`, not its original `some 3`. -/
theorem C10_aggregator_mutates_lai_grid :
    (get_spatial_weighted_LAI [[some 3]] [[some 1]] [[some 255]]).1 = [[none]] ∧
    [[(none : Option ℚ)]] ≠ [[some (3 : ℚ)]] := by
  with_unfolding_all decide

/-- **C10** (amended): the aggregator's in-place writes only erase: after the
call each LAI and standard-deviation cell holds either its original value or
the missing marker (never a different number), and the QC grid is never
written at all (the embedding of the mutated state has no QC component
because the source assigns only to `lai_pixel` and `sd_pixel`). -/
theorem C10_amended_mutation_only_erases (l s q : Option ℚ) :
    (laiFinal l s q = l ∨ laiFinal l s q = none) ∧
    (sdFinal s q = s ∨ sdFinal s q = none) :=
  ⟨laiFinal_cases l s q, sdFinal_cases s q⟩

/-! ## Helper lemmas for the interpolator -/

theorem fillNA_length (f : List (ℕ × ℚ) → ℕ → ℚ) (pts : List (ℕ × ℚ)) :
    ∀ (xs : List (Option ℚ)) (k : ℕ), (fillNA f pts k xs).length = xs.length := by
  intro xs
  induction xs with
  | nil => intro k; rfl
  | cons a rest ih => intro k; cases a <;> simp [fillNA, ih]

theorem fillNA_get? (f : List (ℕ × ℚ) → ℕ → ℚ) (pts : List (ℕ × ℚ)) :
    ∀ (xs : List (Option ℚ)) (k i : ℕ),
      (fillNA f pts k xs).get? i =
        (xs.get? i).map (fun o =>
          match o with
          | some x => some x
          | none => some (f pts (k + i))) := by
  intro xs
  induction xs with
  | nil => intro k i; rfl
  | cons a rest ih =>
    intro k i
    cases i with
    | zero => cases a <;> simp [fillNA]
    | succ n =>
      have harith : k + 1 + n = k + (n + 1) := by omega
      have hrec := ih (k + 1) n
      rw [harith] at hrec
      cases a
      · exact hrec
      · exact hrec

theorem fillNA_all_some (f : List (ℕ × ℚ) → ℕ → ℚ) (pts : List (ℕ × ℚ)) :
    ∀ (xs : List (Option ℚ)) (k : ℕ), ∀ o ∈ fillNA f pts k xs, ∃ v, o = some v := by
  intro xs
  induction xs with
  | nil => intro k o ho; cases ho
  | cons a rest ih =>
    intro k o ho
    cases a with
    | none =>
      rcases List.mem_cons.1 ho with rfl | ho'
      · exact ⟨_, rfl⟩
      · exact ih (k + 1) o ho'
    | some x =>
      rcases List.mem_cons.1 ho with rfl | ho'
      · exact ⟨x, rfl⟩
      · exact ih (k + 1) o ho'

/-- Explicit form of `interpolate_NA_LAI` on a nonempty input. -/
theorem interpolate_NA_LAI_eq (interp : List (ℕ × ℚ) → ℕ → ℚ)
    {xs : List (Option ℚ)} (h : xs ≠ []) :
    interpolate_NA_LAI interp xs =
      ((fillNA interp (interpPts 0 xs) 0 xs).map
          (Option.map (fun x => if x < 0 then 0 else x))).set
        (((fillNA interp (interpPts 0 xs) 0 xs).map
            (Option.map (fun x => if x < 0 then 0 else x))).length - 1) (some 0) := by
  have hne : xs.isEmpty = false := by
    cases xs with
    | nil => exact absurd rfl h
    | cons a rest => rfl
  unfold interpolate_NA_LAI
  rw [hne]
  exact rfl

/-- Every entry of the interpolator's output is a present, nonnegative value. -/
theorem interpolate_mem_nonneg (interp : List (ℕ × ℚ) → ℕ → ℚ)
    {xs : List (Option ℚ)} (h : xs ≠ []) :
    ∀ o ∈ interpolate_NA_LAI interp xs, ∃ v, o = some v ∧ 0 ≤ v := by
  intro o ho
  rw [interpolate_NA_LAI_eq interp h] at ho
  rcases List.mem_or_eq_of_mem_set ho with hmem | rfl
  · obtain ⟨o', ho', rfl⟩ := List.mem_map.1 hmem
    obtain ⟨v, rfl⟩ := fillNA_all_some interp (interpPts 0 xs) xs 0 o' ho'
    refine ⟨if v < 0 then 0 else v, rfl, ?_⟩
    by_cases hv : v < 0
    · rw [if_pos hv]
    · rw [if_neg hv]
      exact not_lt.1 hv
  · exact ⟨0, rfl, le_refl 0⟩

/-! ## Claim C5 -/

/-- **C5** (confirmed): for any interpolant (the cubic spline of
`scipy.interpolate.interp1d(kind='cubic', fill_value="extrapolate")` is
abstracted as the parameter `interp`, applied to exactly the non-missing
(index, value) pairs) and any nonempty input series, `interpolate_NA_LAI`
returns a fully dense series of the same length in which every entry is
present and nonnegative, every originally-missing non-final position `i`
holds the interpolant's value at `i` clamped below at 0, and the final
element is exactly 0 regardless of its interpolated value. -/
theorem C5_interpolator_dense_nonneg_lastzero (interp : List (ℕ × ℚ) → ℕ → ℚ)
    (xs : List (Option ℚ)) (h : xs ≠ []) :
    (interpolate_NA_LAI interp xs).length = xs.length ∧
    (∀ o ∈ interpolate_NA_LAI interp xs, ∃ v, o = some v ∧ 0 ≤ v) ∧
    (interpolate_NA_LAI interp xs).get? (xs.length - 1) = some (some 0) ∧
    (∀ i, i + 1 < xs.length → xs.get? i = some none →
      (interpolate_NA_LAI interp xs).get? i =
        some (some (if interp (interpPts 0 xs) i < 0 then 0
                    else interp (interpPts 0 xs) i))) := by
  have hlen : (interpolate_NA_LAI interp xs).length = xs.length := by
    rw [interpolate_NA_LAI_eq interp h]
    simp [fillNA_length]
  have hcaplen :
      ((fillNA interp (interpPts 0 xs) 0 xs).map
          (Option.map (fun x => if x < 0 then 0 else x))).length = xs.length := by
    simp [fillNA_length]
  refine ⟨hlen, interpolate_mem_nonneg interp h, ?_, ?_⟩
  · have hpos : 0 < xs.length := List.length_pos.2 h
    rw [interpolate_NA_LAI_eq interp h, hcaplen, List.get?_eq_getElem?,
      List.getElem?_set_eq_of_lt]
    rw [hcaplen]
    omega
  · intro i hi hmiss
    rw [interpolate_NA_LAI_eq interp h, hcaplen, List.get?_eq_getElem?,
      List.getElem?_set_ne (by omega : xs.length - 1 ≠ i)]
    rw [List.getElem?_map, ← List.get?_eq_getElem?,
      fillNA_get? interp (interpPts 0 xs) xs 0 i, hmiss]
    simp

/-! ## Claim C4 -/

theorem zipWith3_get? (f : α → β → γ → δ) :
    ∀ (as : List α) (bs : List β) (cs : List γ) (i : ℕ) (a : α) (b : β) (c : γ),
      as.get? i = some a → bs.get? i = some b → cs.get? i = some c →
      (zipWith3 f as bs cs).get? i = some (f a b c) := by
  intro as
  induction as with
  | nil => intro bs cs i a b c ha; cases ha
  | cons a0 as ih =>
    intro bs cs i a b c ha hb hc
    cases bs with
    | nil => cases hb
    | cons b0 bs =>
      cases cs with
      | nil => cases hc
      | cons c0 cs =>
        cases i with
        | zero =>
          cases ha; cases hb; cases hc
          rfl
        | succ n =>
          exact ih bs cs n a b c ha hb hc

/-- A row all of whose QC flags fail the membership test aggregates to the
missing marker. -/
theorem rowAgg_none_of_allfail {ls ss qs : List (Option ℚ)}
    (hfail : ∀ q ∈ qs, isinQC q = false) : rowAgg ls ss qs = none := by
  have hnil : (rowWeighted ls ss qs).filterMap id = [] := by
    apply filterMap_id_eq_nil
    intro x hx
    unfold rowWeighted at hx
    obtain ⟨a, b, ha, _, rfl⟩ := mem_zipWith hx
    unfold rowLaiFinal at ha
    obtain ⟨l, s', q', _, _, hq', rfl⟩ := mem_zipWith3 ha
    rw [laiFinal_none_of_qcfail (hfail q' hq')]
    rfl
  simp only [rowAgg, nanmean]
  rw [hnil]
  rfl

/-- Like `mem_zipWith3`, but also recovering a common index at which the
three lists hold the combined elements. -/
theorem mem_zipWith3_get? {f : α → β → γ → δ} {x : δ} :
    ∀ {as : List α} {bs : List β} {cs : List γ}, x ∈ zipWith3 f as bs cs →
      ∃ i a b c, as.get? i = some a ∧ bs.get? i = some b ∧ cs.get? i = some c ∧
        x = f a b c := by
  intro as
  induction as with
  | nil => intro bs cs h; cases bs <;> cases cs <;> simp [zipWith3] at h
  | cons a as ih =>
    intro bs cs h
    cases bs with
    | nil => cases cs <;> simp [zipWith3] at h
    | cons b bs =>
      cases cs with
      | nil => simp [zipWith3] at h
      | cons c cs =>
        rw [zipWith3_cons] at h
        rcases List.mem_cons.1 h with rfl | h'
        · exact ⟨0, a, b, c, rfl, rfl, rfl, rfl⟩
        · obtain ⟨i, a', b', c', ha, hb, hc, hx⟩ := ih h'
          exact ⟨i + 1, a', b', c', ha, hb, hc, hx⟩

/-- A cell failing the keep-mask — whichever of the three conditions is
violated — ends up missing in the masked LAI grid. -/
theorem laiFinal_none_of_keepMask_false {l s q : Option ℚ}
    (h : keepMask l s q = false) : laiFinal l s q = none := by
  by_cases hq : isinQC q
  · unfold keepMask at h
    rw [hq] at h
    simp only [Bool.true_and] at h
    rcases Bool.and_eq_false_iff.1 h with hB | hC
    · have hsd : sdFinal s q = none := by
        cases s with
        | none =>
          unfold sdFinal
          rw [hq]
          exact rfl
        | some v =>
          have hB' : decide ((1 : ℚ)/10 ≤ v) = false := hB
          have hv : v < 1/10 := lt_of_not_le (of_decide_eq_false hB')
          unfold sdFinal
          rw [hq]
          show (if v < 1/10 then (none : Option ℚ) else some v) = none
          rw [if_pos hv]
      unfold laiFinal
      rw [hsd]
      exact rfl
    · cases l with
      | none =>
        unfold laiFinal
        by_cases hsd : sdFinal s q = none
        · rw [hsd]
          exact rfl
        · rw [if_neg hsd, hq]
          exact rfl
      | some v =>
        have hC' : decide (v ≤ (10 : ℚ)) = false := hC
        have hv : 10 < v := lt_of_not_le (of_decide_eq_false hC')
        unfold laiFinal
        by_cases hsd : sdFinal s q = none
        · rw [hsd]
          exact rfl
        · rw [if_neg hsd, hq]
          show (if 10 < v then (none : Option ℚ) else some v) = none
          rw [if_pos hv]
  · rw [Bool.not_eq_true] at hq
    exact laiFinal_none_of_qcfail hq

/-- A row all of whose cells fail the keep-mask — by the QC membership, the
σ ≥ 0.1 floor, the LAI ≤ 10 ceiling, or an already-missing value — aggregates
to the missing marker. -/
theorem rowAgg_none_of_keepMask_false {ls ss qs : List (Option ℚ)}
    (hfail : ∀ i l s q, ls.get? i = some l → ss.get? i = some s →
      qs.get? i = some q → keepMask l s q = false) :
    rowAgg ls ss qs = none := by
  have hnil : (rowWeighted ls ss qs).filterMap id = [] := by
    apply filterMap_id_eq_nil
    intro x hx
    unfold rowWeighted at hx
    obtain ⟨a, b, ha, _, rfl⟩ := mem_zipWith hx
    unfold rowLaiFinal at ha
    obtain ⟨i, l, s', q', hli, hsi, hqi, rfl⟩ := mem_zipWith3_get? ha
    rw [laiFinal_none_of_keepMask_false (hfail i l s' q' hli hsi hqi)]
    rfl
  simp only [rowAgg, nanmean]
  rw [hnil]
  rfl

/-- **C4** (confirmed): at a time step whose pixels all fail the quality
mask — each in any of the three ways (QC flag outside the accepted set,
standard deviation missing or below 0.1, LAI missing or above 10) —
`get_spatial_weighted_LAI` produces the missing marker (`none`, the NaN of
the embedding) for that step, not zero and not an error (the aggregator is
total), and feeding the whole weighted series into `interpolate_NA_LAI`
yields an everywhere-present series: the missing step is filled by the
interpolant rather than crashing the pipeline. -/
theorem C4_allmasked_step_missing_and_propagates
    (lai_pixel sd_pixel qc_pixel : List (List (Option ℚ))) (t : ℕ)
    (lrow srow qrow : List (Option ℚ))
    (hl : lai_pixel.get? t = some lrow) (hs : sd_pixel.get? t = some srow)
    (hq : qc_pixel.get? t = some qrow)
    (hfail : ∀ i l s q, lrow.get? i = some l → srow.get? i = some s →
      qrow.get? i = some q → keepMask l s q = false) :
    (get_spatial_weighted_LAI lai_pixel sd_pixel qc_pixel).2.2.get? t = some none ∧
    ∀ interp,
      ∀ o ∈ interpolate_NA_LAI interp
        (get_spatial_weighted_LAI lai_pixel sd_pixel qc_pixel).2.2,
      o.isSome = true := by
  have hstep : (get_spatial_weighted_LAI lai_pixel sd_pixel qc_pixel).2.2.get? t
      = some none := by
    show (zipWith3 rowAgg lai_pixel sd_pixel qc_pixel).get? t = some none
    rw [zipWith3_get? rowAgg lai_pixel sd_pixel qc_pixel t lrow srow qrow hl hs hq,
      rowAgg_none_of_keepMask_false hfail]
  refine ⟨hstep, ?_⟩
  intro interp o ho
  have hne : (get_spatial_weighted_LAI lai_pixel sd_pixel qc_pixel).2.2 ≠ [] := by
    intro hnil
    rw [hnil] at hstep
    cases hstep
  obtain ⟨v, rfl, _⟩ := interpolate_mem_nonneg interp hne o ho
  rfl

/-! ## Claim C6 -/

/-- The spec's inclusive-bounds rolling window (`max(0,i-6)` through
`min(n-1,i+6)`) coincides with the code's half-open slice
`array[max(0, i - 13//2) : min(n, i + (13+1)//2)]`. -/
theorem specRolling_eq_rolling (arr : List (Option ℚ)) :
    specRollingMean13 arr = rolling_mean arr 13 := by
  unfold specRollingMean13 rolling_mean
  apply List.map_congr_left
  intro i hi
  rw [List.mem_range] at hi
  show windowMean ((arr.drop (i - 6)).take (min (arr.length - 1) (i + 6) + 1 - (i - 6))) =
    windowMean ((arr.drop (i - 13 / 2)).take (min arr.length (i + (13 + 1) / 2) - (i - 13 / 2)))
  have e1 : (13 : ℕ) / 2 = 6 := rfl
  have e2 : ((13 : ℕ) + 1) / 2 = 7 := rfl
  rw [e1, e2]
  have e3 : min (arr.length - 1) (i + 6) + 1 - (i - 6) = min arr.length (i + 7) - (i - 6) := by
    omega
  rw [e3]

/-- The spec's per-slot mean ignoring missing values is the code's
`np.nanmean(gap_free_lai, axis=0)`. -/
theorem specClimatology_eq (M : List (List (Option ℚ))) :
    specClimatology M = colMeans M := rfl

/-- **C6** (confirmed): the Climatology Smoother assembled from the spec's
words — per-slot mean across retained years ignoring missing values, the
Savitzky-Golay (window 13, order 3) smoothing of that profile, the anomaly
against the *raw* per-slot means, the centered shrinking rolling mean of
window 13 over the flattened anomaly, and the smoothed climatology tiled once
per retained year added back — computes exactly what `smoothing_LAI` (built
from `rolling_mean` and `savgol_filter`) computes, on every input matrix. -/
theorem C6_spec_smoothing_eq_smoothing_LAI (M : List (List (Option ℚ))) :
    spec_smoothing M = smoothing_LAI M := by
  simp only [spec_smoothing, smoothing_LAI, anomalyOf, specClimatology_eq,
    specRolling_eq_rolling]

/-! ## Claim C8 -/

theorem pyGet_neg_one {xs : List (Option ℚ)} (h : xs ≠ []) :
    pyGet xs (-1) = some (xs.getLast h) := by
  have hpos : 0 < xs.length := List.length_pos.2 h
  have hidx : pyIdx xs.length (-1) = (xs.length : ℤ) - 1 := by
    unfold pyIdx
    rw [if_pos (by norm_num : (-1 : ℤ) < 0)]
    omega
  unfold pyGet
  rw [hidx,
    if_pos (by omega : (0 : ℤ) ≤ (xs.length : ℤ) - 1 ∧ (xs.length : ℤ) - 1 < xs.length)]
  have ht : ((xs.length : ℤ) - 1).toNat = xs.length - 1 := by omega
  rw [ht, List.get?_eq_getElem?, ← List.getLast?_eq_getElem?,
    List.getLast?_eq_getLast_of_ne_nil h]

theorem pyGet_nat_lt {xs : List (Option ℚ)} {k : ℕ} (h : k < xs.length) :
    pyGet xs (k : ℤ) = xs.get? k := by
  have hidx : pyIdx xs.length (k : ℤ) = (k : ℤ) := by
    unfold pyIdx
    rw [if_neg (by omega : ¬ ((k : ℤ) < 0))]
  unfold pyGet
  rw [hidx, if_pos (by omega : (0 : ℤ) ≤ (k : ℤ) ∧ (k : ℤ) < xs.length)]
  simp

theorem pyGet_oob {xs : List (Option ℚ)} {k : ℕ} (h : xs.length ≤ k) :
    pyGet xs (k : ℤ) = none := by
  have hidx : pyIdx xs.length (k : ℤ) = (k : ℤ) := by
    unfold pyIdx
    rw [if_neg (by omega : ¬ ((k : ℤ) < 0))]
  unfold pyGet
  rw [hidx, if_neg (by omega : ¬ ((0 : ℤ) ≤ (k : ℤ) ∧ (k : ℤ) < xs.length))]

theorem noneIndices_cons_none_all_some (vs : List ℚ) :
    noneIndices (none :: vs.map some) = [0] := by
  unfold noneIndices
  rw [show (none :: vs.map some).length = vs.length + 1 by simp]
  rw [List.range_succ_eq_map]
  rw [List.filter_cons_of_pos (by rfl)]
  rw [List.filter_map]
  have hnil :
      (List.range vs.length).filter
        ((fun i => decide ((none :: vs.map some).get? i = some none)) ∘ Nat.succ) = [] := by
    rw [List.filter_eq_nil_iff]
    intro a ha
    rw [List.mem_range] at ha
    simp only [Function.comp, decide_eq_true_eq]
    rw [show (none :: vs.map some).get? (Nat.succ a) = (vs.map some).get? a from rfl]
    rw [List.get?_eq_getElem?, List.getElem?_map, List.getElem?_eq_getElem ha]
    simp
  rw [hnil]
  rfl

theorem noneIndices_append_none (vs : List ℚ) :
    noneIndices (vs.map some ++ [none]) = [vs.length] := by
  unfold noneIndices
  have hlen : (vs.map some ++ [none]).length = vs.length + 1 := by simp
  rw [hlen, List.range_succ, List.filter_append]
  have h1 :
      (List.range vs.length).filter
        (fun i => decide ((vs.map some ++ [none]).get? i = some none)) = [] := by
    rw [List.filter_eq_nil_iff]
    intro a ha
    rw [List.mem_range] at ha
    simp only [decide_eq_true_eq]
    rw [List.get?_eq_getElem?,
      List.getElem?_append_left (by simpa using ha : a < (vs.map some).length),
      List.getElem?_map, List.getElem?_eq_getElem ha]
    simp
  have h2 :
      [vs.length].filter
        (fun i => decide ((vs.map some ++ [none]).get? i = some none)) = [vs.length] := by
    apply List.filter_cons_of_pos
    simp only [decide_eq_true_eq]
    rw [List.get?_eq_getElem?,
      List.getElem?_append_right (by simp : (vs.map some).length ≤ vs.length)]
    simp
  rw [h1, h2]
  rfl

/-- **C8** (counterexample): a missing slot at the very first flattened
position is *not* detected or reported: the single-pass fill silently reads
`flat[position - 1]` at `position = 0`, which by Python's negative indexing
is the array's *last* element.  Here the first slot is filled with
`(4 + 2) / 2 = 3` — the average of the last element 4 and the second element
2 — and the call succeeds instead of reporting the boundary violation. -/
theorem C8_first_slot_fill_wraps_around :
    gapFill [none, some 2, some 4] = some [some 3, some 2, some 4] ∧
    gapFill [none, some 2, some 4] ≠ none := by
  with_unfolding_all decide

/-- **C8** (amended): the gap-fill step does not detect boundary gaps; its
actual behaviour is asymmetric.  A missing slot at the first flattened
position is silently filled with the average of the array's last element and
the second element (negative-index wrap-around, no error); a missing slot at
the last position raises an uncaught `IndexError` (`none` in the embedding)
from the read of `flat[position + 1]`. -/
theorem C8_amended_boundary_behavior :
    (∀ (vs : List ℚ) (h : vs ≠ []),
      gapFill (none :: vs.map some) =
        some (some ((vs.getLast h + vs.head h) / 2) :: vs.map some)) ∧
    (∀ vs : List ℚ, gapFill (vs.map some ++ [none]) = none) := by
  constructor
  · intro vs hvs
    unfold gapFill
    rw [noneIndices_cons_none_all_some]
    show gapStep (some (none :: vs.map some)) 0 = _
    have hflatne : (none :: vs.map some) ≠ [] := by simp
    have hmapne : vs.map some ≠ [] := by simpa using hvs
    have hlast : (none :: vs.map some).getLast hflatne = some (vs.getLast hvs) := by
      rw [List.getLast_cons hmapne]
      have e1 : (vs.map some).getLast? = some ((vs.map some).getLast hmapne) :=
        List.getLast?_eq_getLast_of_ne_nil _
      have e2 : vs.getLast? = some (vs.getLast hvs) :=
        List.getLast?_eq_getLast_of_ne_nil _
      have e3 : (vs.map some).getLast? = vs.getLast?.map some := List.getLast?_map _ _
      rw [e1, e2] at e3
      exact Option.some.inj e3
    have h1 : pyGet (none :: vs.map some) (((0 : ℕ) : ℤ) - 1)
        = some (some (vs.getLast hvs)) := by
      rw [show (((0 : ℕ) : ℤ) - 1) = (-1 : ℤ) by norm_num, pyGet_neg_one hflatne, hlast]
    have h2 : pyGet (none :: vs.map some) (((0 : ℕ) : ℤ) + 1)
        = some (some (vs.head hvs)) := by
      rw [show (((0 : ℕ) : ℤ) + 1) = ((1 : ℕ) : ℤ) by norm_num]
      rw [pyGet_nat_lt (by simp [List.length_pos.2 hvs] : 1 < (none :: vs.map some).length)]
      cases vs with
      | nil => exact absurd rfl hvs
      | cons v vt => rfl
    unfold gapStep
    show (match pyGet (none :: vs.map some) (((0 : ℕ) : ℤ) - 1),
              pyGet (none :: vs.map some) (((0 : ℕ) : ℤ) + 1) with
          | some a, some b => some ((none :: vs.map some).set 0 (optAvg a b))
          | _, _ => none) = _
    rw [h1, h2]
    rfl
  · intro vs
    unfold gapFill
    rw [noneIndices_append_none]
    show gapStep (some (vs.map some ++ [none])) vs.length = none
    have h2 : pyGet (vs.map some ++ [none]) ((vs.length : ℤ) + 1) = none := by
      rw [show ((vs.length : ℤ) + 1) = ((vs.length + 1 : ℕ) : ℤ) by push_cast; ring]
      exact pyGet_oob (by simp)
    unfold gapStep
    show (match pyGet (vs.map some ++ [none]) ((vs.length : ℤ) - 1),
              pyGet (vs.map some ++ [none]) ((vs.length : ℤ) + 1) with
          | some a, some b => some ((vs.map some ++ [none]).set vs.length (optAvg a b))
          | _, _ => none) = _
    rw [h2]
    cases pyGet (vs.map some ++ [none]) ((vs.length : ℤ) - 1) <;> rfl

/-- Witness for the amended C8 at concrete inputs: `[none, 11, 7]` is filled
with `(7 + 11)/2 = 9` without any error, and `[5, none]` raises. -/
theorem C8_amended_witness :
    ([11, 7] : List ℚ) ≠ [] ∧
    gapFill [none, some 11, some 7] = some [some 9, some 11, some 7] ∧
    gapFill [some 5, none] = none := by
  refine ⟨by decide, ?_, C8_amended_boundary_behavior.2 [5]⟩
  have h := C8_amended_boundary_behavior.1 [11, 7] (by decide)
  with_unfolding_all exact h

/-! ## Claim C9 -/

theorem allSomeCols_eq_some :
    ∀ {xs : List (Option (List ℚ))} {ys : List (List ℚ)},
      allSomeCols xs = some ys → xs = ys.map some := by
  intro xs
  induction xs with
  | nil =>
    intro ys h
    cases Option.some.inj h
    rfl
  | cons a rest ih =>
    intro ys h
    cases a with
    | none =>
      rw [show allSomeCols (none :: rest) = none from rfl] at h
      cases h
    | some c =>
      rw [show allSomeCols (some c :: rest) = (allSomeCols rest).map (c :: ·) from rfl] at h
      cases hrest : allSomeCols rest with
      | none =>
        rw [hrest] at h
        cases h
      | some zs =>
        rw [hrest] at h
        cases Option.some.inj h
        rw [ih hrest]
        rfl

theorem colScaled_some {tbl : List Record} {p n : ℕ} {c : List ℚ}
    (h : colScaled tbl p n = some c) :
    ∃ r0, (pixelRows tbl p).head? = some r0 ∧ n ≤ (pixelRows tbl p).length ∧
      c = ((pixelRows tbl p).take n).map (fun r => r.value * r0.scale) := by
  unfold colScaled at h
  cases hrows : pixelRows tbl p with
  | nil =>
    rw [hrows] at h
    cases h
  | cons r0 rest =>
    rw [hrows] at h
    have h' : (if (r0 :: rest).length < n then none
        else some (((r0 :: rest).take n).map (fun r => r.value * r0.scale))) = some c := h
    by_cases hlen : (r0 :: rest).length < n
    · rw [if_pos hlen] at h'
      cases h'
    · rw [if_neg hlen] at h'
      cases Option.some.inj h'
      exact ⟨r0, rfl, not_lt.1 hlen, rfl⟩

theorem colUnscaled_some {tbl : List Record} {p n : ℕ} {c : List ℚ}
    (h : colUnscaled tbl p n = some c) :
    n ≤ (pixelRows tbl p).length ∧ c = ((pixelRows tbl p).take n).map Record.value := by
  unfold colUnscaled at h
  by_cases hlen : (pixelRows tbl p).length < n
  · rw [if_pos hlen] at h
    cases h
  · rw [if_neg hlen] at h
    cases Option.some.inj h
    exact ⟨not_lt.1 hlen, rfl⟩

/-- From `allSomeCols (pixel_no.map f) = some cols`: the pointwise value of a
column. -/
theorem cols_get_of_allSomeCols {f : ℕ → Option (List ℚ)} {cols : List (List ℚ)}
    (h : allSomeCols (pixel_no.map f) = some cols) {j p : ℕ}
    (hj : pixel_no.get? j = some p) :
    ∃ c, cols.get? j = some c ∧ f p = some c := by
  have heq := allSomeCols_eq_some h
  have hget : (pixel_no.map f).get? j = (cols.map some).get? j := by rw [heq]
  rw [List.get?_eq_getElem?, List.get?_eq_getElem?] at hget
  rw [List.getElem?_map, List.getElem?_map] at hget
  rw [List.get?_eq_getElem?] at hj
  rw [hj] at hget
  cases hcols : cols[j]? with
  | none =>
    rw [hcols] at hget
    cases hget
  | some c =>
    rw [hcols] at hget
    refine ⟨c, ?_, Option.some.inj hget⟩
    rw [List.get?_eq_getElem?, hcols]

/-- **C9** (counterexample): for tables holding exactly the nine 3×3-window
pixels {7,...,19} with two observations each (18 rows per table), the maximum
pixel identifier is 19 while the number of distinct pixels is 9; the code
computes `no_tsteps = 18 // 19 = 0` and builds empty columns (shape [0, 9]),
whereas the claim's `N = 18 // 9 = 2`. -/
theorem C9_no_tsteps_uses_max_pixel_not_count :
    (get_LAI_grids (pixel_no.flatMap (fun p => [⟨p, 1, 1, 1⟩, ⟨p, 2, 1, 1⟩]))
        (pixel_no.flatMap (fun p => [⟨p, 1, 1, 1⟩, ⟨p, 2, 1, 1⟩]))
        (pixel_no.flatMap (fun p => [⟨p, 1, 1, 1⟩, ⟨p, 2, 1, 1⟩]))).map
      (fun g => g.1.map List.length) = some (List.replicate 9 0) ∧
    spec_no_tsteps (pixel_no.flatMap (fun p => [⟨p, 1, 1, 1⟩, ⟨p, 2, 1, 1⟩]))
      (pixel_no.flatMap (fun p => [⟨p, 1, 1, 1⟩, ⟨p, 2, 1, 1⟩]))
      (pixel_no.flatMap (fun p => [⟨p, 1, 1, 1⟩, ⟨p, 2, 1, 1⟩])) = 2 ∧
    (0 : ℕ) ≠ 2 := by
  with_unfolding_all decide

/-- **C9** (amended): the Pixel Selector builds three equal-shaped grids of 9
pixel columns, each of length `N`, for the fixed ordered identifiers
{7,8,9,12,13,14,17,18,19} — but `N` is the minimum common observation count
divided by the *maximum pixel identifier* in the LAI table (`max(lai['pixel'])`),
not by the number of distinct pixels.  LAI and standard-deviation entries are
the raw values times the scale factor of that pixel's first row, QC entries
are unscaled, and the timestamp sequence is the full date column of the
reference pixel 7 in the LAI table. -/
theorem C9_amended_selector_shape_and_scaling (lai sd qc : List Record) (n : ℕ)
    (g : List (List ℚ) × List (List ℚ) × List (List ℚ) × List ℕ)
    (hn : no_tsteps lai sd qc = some n)
    (hg : get_LAI_grids lai sd qc = some g) :
    (∃ m, (lai.map Record.pixel).max? = some m ∧ m ≠ 0 ∧
      n = min (min lai.length sd.length) qc.length / m) ∧
    (g.1.length = 9 ∧ g.2.1.length = 9 ∧ g.2.2.1.length = 9) ∧
    ((∀ col ∈ g.1, col.length = n) ∧ (∀ col ∈ g.2.1, col.length = n) ∧
      (∀ col ∈ g.2.2.1, col.length = n)) ∧
    (∀ j p, pixel_no.get? j = some p →
      (∃ r0, (pixelRows lai p).head? = some r0 ∧
        g.1.get? j = some (((pixelRows lai p).take n).map (fun r => r.value * r0.scale))) ∧
      (∃ r0, (pixelRows sd p).head? = some r0 ∧
        g.2.1.get? j = some (((pixelRows sd p).take n).map (fun r => r.value * r0.scale))) ∧
      g.2.2.1.get? j = some (((pixelRows qc p).take n).map Record.value)) ∧
    g.2.2.2 = (pixelRows lai 7).map Record.calendar_date := by
  -- dissect no_tsteps
  have hnform : ∃ m, (lai.map Record.pixel).max? = some m ∧ m ≠ 0 ∧
      n = min (min lai.length sd.length) qc.length / m := by
    unfold no_tsteps at hn
    cases hm : (lai.map Record.pixel).max? with
    | none =>
      rw [hm] at hn
      cases hn
    | some m =>
      rw [hm] at hn
      have hn' : (if m = 0 then none
          else some (min (min lai.length sd.length) qc.length / m)) = some n := hn
      by_cases hm0 : m = 0
      · rw [if_pos hm0] at hn'
        cases hn'
      · rw [if_neg hm0] at hn'
        exact ⟨m, rfl, hm0, (Option.some.inj hn').symm⟩
  -- dissect get_LAI_grids
  unfold get_LAI_grids at hg
  rw [hn, Option.some_bind] at hg
  cases hl : allSomeCols (pixel_no.map (fun p => colScaled lai p n)) with
  | none =>
    rw [hl] at hg
    cases hg
  | some lcols =>
    rw [hl, Option.some_bind] at hg
    cases hsdc : allSomeCols (pixel_no.map (fun p => colScaled sd p n)) with
    | none =>
      rw [hsdc] at hg
      cases hg
    | some scols =>
      rw [hsdc, Option.some_bind] at hg
      cases hqcc : allSomeCols (pixel_no.map (fun p => colUnscaled qc p n)) with
      | none =>
        rw [hqcc] at hg
        cases hg
      | some qcols =>
        rw [hqcc] at hg
        cases Option.some.inj hg
        have hllen : lcols.length = 9 := by
          have := congrArg List.length (allSomeCols_eq_some hl)
          simpa using this.symm
        have hslen : scols.length = 9 := by
          have := congrArg List.length (allSomeCols_eq_some hsdc)
          simpa using this.symm
        have hqlen : qcols.length = 9 := by
          have := congrArg List.length (allSomeCols_eq_some hqcc)
          simpa using this.symm
        refine ⟨hnform, ⟨hllen, hslen, hqlen⟩, ⟨?_, ?_, ?_⟩, ?_, rfl⟩
        · intro col hcol
          have : some col ∈ pixel_no.map (fun p => colScaled lai p n) := by
            rw [allSomeCols_eq_some hl]
            exact List.mem_map_of_mem _ hcol
          obtain ⟨p, _, hp⟩ := List.mem_map.1 this
          obtain ⟨r0, _, hle, rfl⟩ := colScaled_some hp
          rw [List.length_map, List.length_take]
          omega
        · intro col hcol
          have : some col ∈ pixel_no.map (fun p => colScaled sd p n) := by
            rw [allSomeCols_eq_some hsdc]
            exact List.mem_map_of_mem _ hcol
          obtain ⟨p, _, hp⟩ := List.mem_map.1 this
          obtain ⟨r0, _, hle, rfl⟩ := colScaled_some hp
          rw [List.length_map, List.length_take]
          omega
        · intro col hcol
          have : some col ∈ pixel_no.map (fun p => colUnscaled qc p n) := by
            rw [allSomeCols_eq_some hqcc]
            exact List.mem_map_of_mem _ hcol
          obtain ⟨p, _, hp⟩ := List.mem_map.1 this
          obtain ⟨hle, rfl⟩ := colUnscaled_some hp
          rw [List.length_map, List.length_take]
          omega
        · intro j p hj
          refine ⟨?_, ?_, ?_⟩
          · obtain ⟨c, hc, hfc⟩ := cols_get_of_allSomeCols hl hj
            obtain ⟨r0, hr0, _, rfl⟩ := colScaled_some hfc
            exact ⟨r0, hr0, hc⟩
          · obtain ⟨c, hc, hfc⟩ := cols_get_of_allSomeCols hsdc hj
            obtain ⟨r0, hr0, _, rfl⟩ := colScaled_some hfc
            exact ⟨r0, hr0, hc⟩
          · obtain ⟨c, hc, hfc⟩ := cols_get_of_allSomeCols hqcc hj
            obtain ⟨_, rfl⟩ := colUnscaled_some hfc
            exact hc

/-- Witness for the amended C9: tables with the full 5×5 window, pixels 1..25,
one observation each; `max pixel = 25 = row count`, so `N = 25 // 25 = 1`. -/
theorem C9_amended_witness :
    ∃ m, (((List.range 25).map (fun k : ℕ => (⟨k + 1, 100 + k, 2, 3⟩ : Record))).map Record.pixel).max? = some m ∧ m ≠ 0 ∧
      1 = min (min ((List.range 25).map (fun k : ℕ => (⟨k + 1, 100 + k, 2, 3⟩ : Record))).length
          ((List.range 25).map (fun k : ℕ => (⟨k + 1, 100 + k, 2, 3⟩ : Record))).length)
        ((List.range 25).map (fun k : ℕ => (⟨k + 1, 100 + k, 2, 3⟩ : Record))).length / m :=
  (C9_amended_selector_shape_and_scaling
    ((List.range 25).map (fun k : ℕ => (⟨k + 1, 100 + k, 2, 3⟩ : Record)))
    ((List.range 25).map (fun k : ℕ => (⟨k + 1, 100 + k, 2, 3⟩ : Record)))
    ((List.range 25).map (fun k : ℕ => (⟨k + 1, 100 + k, 2, 3⟩ : Record)))
    1
    (List.replicate 9 [6], List.replicate 9 [6], List.replicate 9 [2], [106])
    (by with_unfolding_all rfl) (by with_unfolding_all rfl)).1

/-! ## Claim C7 -/

theorem rolling_mean_length (arr : List (Option ℚ)) (w : ℕ) :
    (rolling_mean arr w).length = arr.length := by
  unfold rolling_mean
  rw [List.length_map, List.length_range]

theorem tile_length (xs : List (Option ℚ)) (reps : ℕ) :
    (tile xs reps).length = reps * xs.length := by
  induction reps with
  | zero => simp [tile]
  | succ k ih =>
    show (xs ++ (List.replicate k xs).flatten).length = (k + 1) * xs.length
    rw [List.length_append]
    have : (List.replicate k xs).flatten.length = k * xs.length := ih
    rw [this]
    ring

theorem tile_mem {xs : List (Option ℚ)} {reps : ℕ} {b : Option ℚ}
    (hb : b ∈ tile xs reps) : b ∈ xs := by
  unfold tile at hb
  rw [List.mem_flatten] at hb
  obtain ⟨s, hs, hbs⟩ := hb
  rw [List.eq_of_mem_replicate hs] at hbs
  exact hbs

theorem allSome_of_all_isSome :
    ∀ {xs : List (Option ℚ)}, (∀ x ∈ xs, x.isSome = true) →
      ∃ vs, allSome xs = some vs ∧ vs.length = xs.length := by
  intro xs
  induction xs with
  | nil => intro _; exact ⟨[], rfl, rfl⟩
  | cons a rest ih =>
    intro h
    cases a with
    | none =>
      have := h none (List.mem_cons_self _ _)
      cases this
    | some v =>
      obtain ⟨vs, hvs, hlen⟩ := ih (fun x hx => h x (List.mem_cons_of_mem _ hx))
      refine ⟨v :: vs, ?_, by simp [hlen]⟩
      rw [show allSome (some v :: rest) = (allSome rest).map (v :: ·) from rfl, hvs]
      rfl

theorem windowMean_some {xs : List (Option ℚ)} (hne : xs ≠ [])
    (hall : ∀ x ∈ xs, x.isSome = true) : (windowMean xs).isSome = true := by
  obtain ⟨vs, hvs, hlen⟩ := allSome_of_all_isSome hall
  have hvne : vs ≠ [] := by
    intro hv
    apply hne
    rw [hv] at hlen
    exact List.length_eq_zero.1 hlen.symm
  have hfalse : vs.isEmpty = false := by
    cases vs with
    | nil => exact absurd rfl hvne
    | cons _ _ => rfl
  unfold windowMean
  rw [hvs]
  show (if vs.isEmpty = true then none else some (vs.sum / vs.length)).isSome = true
  rw [hfalse]
  rfl

theorem rolling_mean_all_some {arr : List (Option ℚ)}
    (hall : ∀ x ∈ arr, x.isSome = true) :
    ∀ y ∈ rolling_mean arr 13, y.isSome = true := by
  intro y hy
  unfold rolling_mean at hy
  obtain ⟨i, hi, rfl⟩ := List.mem_map.1 hy
  rw [List.mem_range] at hi
  show (windowMean ((arr.drop (i - 13 / 2)).take
    (min arr.length (i + (13 + 1) / 2) - (i - 13 / 2)))).isSome = true
  have e1 : (13 : ℕ) / 2 = 6 := rfl
  have e2 : ((13 : ℕ) + 1) / 2 = 7 := rfl
  rw [e1, e2]
  apply windowMean_some
  · apply List.ne_nil_of_length_pos
    rw [List.length_take, List.length_drop]
    omega
  · intro x hx
    exact hall x (List.mem_of_mem_drop (List.mem_of_mem_take hx))

theorem colMeans_all_some {M : List (List (Option ℚ))} (hM : M ≠ [])
    (hcols : ∀ r ∈ M, r.length = 46)
    (hdense : ∀ r ∈ M, ∀ c ∈ r, c.isSome = true) :
    ∀ x ∈ colMeans M, x.isSome = true := by
  intro x hx
  unfold colMeans at hx
  obtain ⟨j, hj, rfl⟩ := List.mem_map.1 hx
  rw [List.mem_range] at hj
  cases M with
  | nil => exact absurd rfl hM
  | cons r0 rest =>
    have hr0len : j < r0.length := hj
    have hr0some : (r0.getD j none).isSome = true := by
      rw [List.getD_eq_getElem?_getD, List.getElem?_eq_getElem hr0len]
      exact hdense r0 (List.mem_cons_self _ _) _ (List.getElem_mem hr0len)
    obtain ⟨v, hv⟩ := Option.isSome_iff_exists.1 hr0some
    have hmem : v ∈ ((r0 :: rest).map (fun row => row.getD j none)).filterMap id := by
      apply List.mem_filterMap.2
      refine ⟨r0.getD j none, ?_, hv⟩
      exact List.mem_map_of_mem _ (List.mem_cons_self _ _)
    have hne : ((r0 :: rest).map (fun row => row.getD j none)).filterMap id ≠ [] :=
      List.ne_nil_of_mem hmem
    have hfalse : (((r0 :: rest).map (fun row => row.getD j none)).filterMap id).isEmpty
        = false := by
      cases he : ((r0 :: rest).map (fun row => row.getD j none)).filterMap id with
      | nil => exact absurd he hne
      | cons _ _ => rfl
    show (if (((r0 :: rest).map (fun row => row.getD j none)).filterMap id).isEmpty = true
        then none
        else some ((((r0 :: rest).map (fun row => row.getD j none)).filterMap id).sum /
          (((r0 :: rest).map (fun row => row.getD j none)).filterMap id).length)).isSome
      = true
    rw [hfalse]
    rfl

theorem anomaly_all_some {M : List (List (Option ℚ))} (hM : M ≠ [])
    (hcols : ∀ r ∈ M, r.length = 46)
    (hdense : ∀ r ∈ M, ∀ c ∈ r, c.isSome = true) :
    ∀ x ∈ (anomalyOf M).flatten, x.isSome = true := by
  intro x hx
  rw [List.mem_flatten] at hx
  obtain ⟨row', hrow', hxrow⟩ := hx
  unfold anomalyOf at hrow'
  obtain ⟨row, hrowM, rfl⟩ := List.mem_map.1 hrow'
  obtain ⟨a, b, ha, hb, rfl⟩ := mem_zipWith hxrow
  have has : a.isSome = true := hdense row hrowM a ha
  have hbs : b.isSome = true := colMeans_all_some hM hcols hdense b hb
  obtain ⟨va, hva⟩ := Option.isSome_iff_exists.1 has
  obtain ⟨vb, hvb⟩ := Option.isSome_iff_exists.1 hbs
  rw [hva, hvb]
  rfl

theorem flatten_length_const {L : List (List (Option ℚ))} {c : ℕ}
    (h : ∀ r ∈ L, r.length = c) : L.flatten.length = L.length * c := by
  induction L with
  | nil => simp
  | cons r rest ih =>
    show (r ++ rest.flatten).length = (rest.length + 1) * c
    rw [List.length_append, h r (List.mem_cons_self _ _),
      ih (fun r' hr' => h r' (List.mem_cons_of_mem _ hr'))]
    ring

theorem zipWith_add_sub_cancel :
    ∀ (as bs : List (Option ℚ)), as.length = bs.length →
      (∀ a ∈ as, a.isSome = true) → (∀ b ∈ bs, b.isSome = true) →
      List.zipWith optSub (List.zipWith optAdd as bs) bs = as := by
  intro as
  induction as with
  | nil =>
    intro bs h _ _
    cases bs with
    | nil => rfl
    | cons _ _ => cases h
  | cons a as ih =>
    intro bs hlen ha hb
    cases bs with
    | nil => cases hlen
    | cons b bs =>
      obtain ⟨va, hva⟩ := Option.isSome_iff_exists.1 (ha a (List.mem_cons_self _ _))
      obtain ⟨vb, hvb⟩ := Option.isSome_iff_exists.1 (hb b (List.mem_cons_self _ _))
      rw [List.zipWith_cons_cons, List.zipWith_cons_cons]
      rw [hva, hvb]
      have htail := ih bs (by simpa using hlen)
        (fun x hx => ha x (List.mem_cons_of_mem _ hx))
        (fun x hx => hb x (List.mem_cons_of_mem _ hx))
      rw [show optSub (optAdd (some va) (some vb)) (some vb) = some (va + vb - vb) from rfl]
      rw [add_sub_cancel_right]
      rw [htail]

/-- **C7** (counterexample): for the fully-observed gap-free 2×46 matrix with
first column (1, -1) and zeros elsewhere, the per-slot means are all 0, so
the original anomaly is the matrix itself; but the smoother's rolling mean
turns the flattened anomaly entry 1 at position 0 into the window average
1/7, so subtracting the original climatology from the smoother's output gives
1/7 ≠ 1 at position 0: the round trip does not recover the anomaly exactly. -/
theorem C7_roundtrip_fails_on_spike_matrix :
    (smoothing_LAI [some 1 :: List.replicate 45 (some 0),
        some (-1) :: List.replicate 45 (some 0)]).map
      (fun out => List.zipWith optSub out
        (tile (colMeans [some 1 :: List.replicate 45 (some 0),
          some (-1) :: List.replicate 45 (some 0)]) 2))
    ≠ some (anomalyOf [some 1 :: List.replicate 45 (some 0),
        some (-1) :: List.replicate 45 (some 0)]).flatten := by
  with_unfolding_all decide

/-- **C7** (amended): what the round trip actually recovers.  For every
fully-observed (dense) gap-free matrix with 46 columns, subtracting the
*smoothed* climatology (tiled once per retained year) from the Climatology
Smoother's output recovers exactly the rolling-mean-smoothed anomaly — not
the original anomaly, which is recovered only where the rolling mean and the
Savitzky-Golay filter act as the identity. -/
theorem C7_amended_roundtrip_recovers_smoothed_anomaly
    (M : List (List (Option ℚ))) (hM : M ≠ [])
    (hcols : ∀ r ∈ M, r.length = 46)
    (hdense : ∀ r ∈ M, ∀ c ∈ r, c.isSome = true) :
    ∃ out sm, smoothing_LAI M = some out ∧ savgolOpt (colMeans M) = some sm ∧
      List.zipWith optSub out (tile sm M.length) =
        rolling_mean (anomalyOf M).flatten 13 := by
  have hclen : (colMeans M).length = 46 := by
    unfold colMeans
    rw [List.length_map, List.length_range]
    cases M with
    | nil => exact absurd rfl hM
    | cons r0 rest => exact hcols r0 (List.mem_cons_self _ _)
  have hcall : ∀ x ∈ colMeans M, x.isSome = true := colMeans_all_some hM hcols hdense
  obtain ⟨vs, hvs, hvslen⟩ := allSome_of_all_isSome hcall
  have hsav : savgolOpt (colMeans M) = some ((savgolCore vs).map some) := by
    unfold savgolOpt
    rw [if_neg (by rw [hclen]; omega : ¬ (colMeans M).length < 13), hvs]
  have hsmlen : ((savgolCore vs).map some).length = 46 := by
    rw [List.length_map]
    unfold savgolCore
    rw [List.length_map, List.length_range, hvslen, hclen]
  have hsmall : ∀ x ∈ (savgolCore vs).map some, x.isSome = true := by
    intro x hx
    obtain ⟨_, _, rfl⟩ := List.mem_map.1 hx
    rfl
  have hout : smoothing_LAI M =
      some (List.zipWith optAdd (rolling_mean (anomalyOf M).flatten 13)
        (tile ((savgolCore vs).map some) M.length)) := by
    unfold smoothing_LAI
    rw [hsav]
    rfl
  refine ⟨_, (savgolCore vs).map some, hout, hsav, ?_⟩
  have hanomrows : ∀ r ∈ anomalyOf M, r.length = 46 := by
    intro r hr
    unfold anomalyOf at hr
    obtain ⟨row, hrow, rfl⟩ := List.mem_map.1 hr
    rw [List.length_zipWith, hcols row hrow, hclen]
    rfl
  apply zipWith_add_sub_cancel
  · rw [rolling_mean_length, tile_length, hsmlen, flatten_length_const hanomrows]
    unfold anomalyOf
    rw [List.length_map]
  · exact rolling_mean_all_some (anomaly_all_some hM hcols hdense)
  · intro b hb
    exact hsmall b (tile_mem hb)

/-- Witness for the amended C7 at the concrete spike matrix. -/
theorem C7_amended_witness :
    ∃ out sm,
      smoothing_LAI [some 1 :: List.replicate 45 (some 0),
        some (-1) :: List.replicate 45 (some 0)] = some out ∧
      savgolOpt (colMeans [some 1 :: List.replicate 45 (some 0),
        some (-1) :: List.replicate 45 (some 0)]) = some sm ∧
      List.zipWith optSub out
          (tile sm ([some 1 :: List.replicate 45 (some 0),
            some (-1) :: List.replicate 45 (some 0)] :
              List (List (Option ℚ))).length) =
        rolling_mean (anomalyOf [some 1 :: List.replicate 45 (some 0),
          some (-1) :: List.replicate 45 (some 0)]).flatten 13 :=
  C7_amended_roundtrip_recovers_smoothed_anomaly
    [some 1 :: List.replicate 45 (some 0), some (-1) :: List.replicate 45 (some 0)]
    (by decide) (by decide) (by decide)

/-! ## Witnesses for the theorems with hypotheses -/

/-- Witness for the amended C3 at `l = 3`, `σ = 1`, `qc = 0` and the one-cell
row `ss = [some 1]`, `qs = [some 0]` (which has a surviving cell). -/
theorem C3_amended_witness :
    (∃ x, x ∈ (rowSdFinal [some 1] [some 0]).filterMap id) ∧
    ((laiFinal (some 3) (some 1) (some 0) = none ↔
        (0 : ℚ) ∉ qc_flags ∨ (1 : ℚ) < 1/10 ∨ (10 : ℚ) < 3) ∧
      (sdFinal (some 1) (some 0) = none ↔ (0 : ℚ) ∉ qc_flags ∨ (1 : ℚ) < 1/10) ∧
      (∀ (ls : List (Option ℚ)) (j : ℕ) (x : Option ℚ),
        (rowLaiFinal ls [some 1] [some 0]).get? j = some none →
        (rowWeighted ls [some 1] [some 0]).get? j = some x → x = none) ∧
      ((rowWeights [some 1] [some 0]).filterMap id).sum = 1) :=
  ⟨⟨1, by with_unfolding_all decide⟩,
    C3_amended_mask_semantics 3 1 0 [some 1] [some 0] ⟨1, by with_unfolding_all decide⟩⟩

/-- Witness for C4 at a two-step grid whose first step has one pixel failing
each of the three mask conditions: pixel 0 carries the disallowed QC flag
255, pixel 1 passes QC but has σ = 1/20 < 0.1, and pixel 2 passes QC with a
valid σ but has LAI = 11 > 10. -/
theorem C4_witness :
    ([[some 5, some 2, some 11], [some 3, some 3, some 3]] :
        List (List (Option ℚ))).get? 0 = some [some 5, some 2, some 11] ∧
    ([[some 1, some (1/20), some 1], [some 1, some 1, some 1]] :
        List (List (Option ℚ))).get? 0 = some [some 1, some (1/20), some 1] ∧
    ([[some 255, some 0, some 0], [some 0, some 0, some 0]] :
        List (List (Option ℚ))).get? 0 = some [some 255, some 0, some 0] ∧
    (∀ i l s q, ([some 5, some 2, some 11] : List (Option ℚ)).get? i = some l →
      ([some 1, some (1/20), some 1] : List (Option ℚ)).get? i = some s →
      ([some 255, some 0, some 0] : List (Option ℚ)).get? i = some q →
      keepMask l s q = false) ∧
    ((get_spatial_weighted_LAI [[some 5, some 2, some 11], [some 3, some 3, some 3]]
        [[some 1, some (1/20), some 1], [some 1, some 1, some 1]]
        [[some 255, some 0, some 0], [some 0, some 0, some 0]]).2.2.get? 0
      = some none ∧
      ∀ interp,
        ∀ o ∈ interpolate_NA_LAI interp
          (get_spatial_weighted_LAI [[some 5, some 2, some 11], [some 3, some 3, some 3]]
            [[some 1, some (1/20), some 1], [some 1, some 1, some 1]]
            [[some 255, some 0, some 0], [some 0, some 0, some 0]]).2.2,
        o.isSome = true) := by
  have hfail : ∀ i l s q, ([some 5, some 2, some 11] : List (Option ℚ)).get? i = some l →
      ([some 1, some (1/20), some 1] : List (Option ℚ)).get? i = some s →
      ([some 255, some 0, some 0] : List (Option ℚ)).get? i = some q →
      keepMask l s q = false := by
    intro i l s q hl hs hq
    cases i with
    | zero =>
      cases hl; cases hs; cases hq
      with_unfolding_all decide
    | succ i =>
      cases i with
      | zero =>
        cases hl; cases hs; cases hq
        with_unfolding_all decide
      | succ i =>
        cases i with
        | zero =>
          cases hl; cases hs; cases hq
          with_unfolding_all decide
        | succ i => cases hl
  exact ⟨rfl, rfl, rfl, hfail,
    C4_allmasked_step_missing_and_propagates
      [[some 5, some 2, some 11], [some 3, some 3, some 3]]
      [[some 1, some (1/20), some 1], [some 1, some 1, some 1]]
      [[some 255, some 0, some 0], [some 0, some 0, some 0]] 0
      [some 5, some 2, some 11] [some 1, some (1/20), some 1] [some 255, some 0, some 0]
      rfl rfl rfl hfail⟩

/-- Witness for C5 at the constant interpolant `-5` (so the clamp at 0 is
exercised) and the input `[none, none, some 2]`. -/
theorem C5_witness :
    ([none, none, some 2] : List (Option ℚ)) ≠ [] ∧
    ((interpolate_NA_LAI (fun _ _ => (-5 : ℚ)) [none, none, some 2]).length
        = ([none, none, some 2] : List (Option ℚ)).length ∧
      (∀ o ∈ interpolate_NA_LAI (fun _ _ => (-5 : ℚ)) [none, none, some 2],
        ∃ v, o = some v ∧ 0 ≤ v) ∧
      (interpolate_NA_LAI (fun _ _ => (-5 : ℚ)) [none, none, some 2]).get?
          (([none, none, some 2] : List (Option ℚ)).length - 1) = some (some 0) ∧
      (∀ i, i + 1 < ([none, none, some 2] : List (Option ℚ)).length →
        ([none, none, some 2] : List (Option ℚ)).get? i = some none →
        (interpolate_NA_LAI (fun _ _ => (-5 : ℚ)) [none, none, some 2]).get? i =
          some (some (if (fun (_ : List (ℕ × ℚ)) (_ : ℕ) => (-5 : ℚ))
              (interpPts 0 [none, none, some 2]) i < 0 then 0
            else (fun (_ : List (ℕ × ℚ)) (_ : ℕ) => (-5 : ℚ))
              (interpPts 0 [none, none, some 2]) i)))) :=
  ⟨by decide,
    C5_interpolator_dense_nonneg_lastzero (fun _ _ => (-5 : ℚ)) [none, none, some 2]
      (by decide)⟩

end ModisLAI
